import Mathlib

/-!
Verification development for `insert_ap_images.py`, the Rule A (one note per
image) attachment engine for Ekahau `.esx` site-survey archives.

The script is shallowly embedded here: JSON documents become the inductive
`JValue`, Python dicts become ordered association lists of string keys,
`uuid.uuid4()` becomes an explicit supply `Nat → String` consumed in call
order, timestamps become explicit parameters, and the filesystem (archive
contents, image directory tree, written asset files) is passed and returned
explicitly.  Ill-typed documents that would raise a `TypeError` in Python are
totalized by the `asObj` / `asArr` coercions; all claims are stated on
well-shaped inputs where the model and the script agree.
-/

/-- A JSON value, as produced by `json.load`.  Numbers are modelled as `Int`
(the documents manipulated by the script carry ids, counters and epoch
milliseconds; no claim depends on float arithmetic). -/
inductive JValue where
  | null
  | str (s : String)
  | num (n : Int)
  | bool (b : Bool)
  | arr (elems : List JValue)
  | obj (fields : List (String × JValue))

instance : Inhabited JValue := ⟨JValue.null⟩

/-- The ordered field list of a Python dict. -/
abbrev Fields := List (String × JValue)

/-- View a value as a dict's field list; non-dicts (a `TypeError` on item
access in Python) are read as the empty dict. -/
def asObj : JValue → Fields
  | JValue.obj fields => fields
  | _ => []

/-- View a value as a list; non-lists are read as the empty list. -/
def asArr : JValue → List JValue
  | JValue.arr elems => elems
  | _ => []

/-- Python truthiness of a JSON value (`if x:`). -/
def pyTruthy : JValue → Bool
  | JValue.null => false
  | JValue.str s => !(s.isEmpty)
  | JValue.num n => !(n == 0)
  | JValue.bool b => b
  | JValue.arr elems => !(elems.isEmpty)
  | JValue.obj fields => !(fields.isEmpty)

/-- Python `==` between a string and a JSON value: only a string ever
compares equal to a string. -/
def strEqValue (s : String) : JValue → Bool
  | JValue.str t => s == t
  | _ => false

/-- Python `==` restricted to hashable JSON values (the only ones that can be
dict keys).  `True == 1` and `False == 0` hold in Python; lists and dicts are
unhashable, so a run that tried to key an index on them would have raised
before any comparison, and they are compared as never equal here. -/
def scalarEq : JValue → JValue → Bool
  | JValue.null, JValue.null => true
  | JValue.str a, JValue.str b => a == b
  | JValue.num a, JValue.num b => a == b
  | JValue.bool a, JValue.bool b => a == b
  | JValue.bool a, JValue.num b => (if a then (1 : Int) else 0) == b
  | JValue.num a, JValue.bool b => a == (if b then (1 : Int) else 0)
  | _, _ => false

/-- `d.get(k)` / `d[k]` lookup on a dict's field list. -/
def getKey? (fields : Fields) (k : String) : Option JValue :=
  (fields.find? (fun p => p.1 == k)).map (fun p => p.2)

/-- `d.get(k, dflt)`. -/
def getKeyD (fields : Fields) (k : String) (dflt : JValue) : JValue :=
  (getKey? fields k).getD dflt

/-- `k in d` for a dict. -/
def hasKey (fields : Fields) (k : String) : Bool :=
  fields.any (fun p => p.1 == k)

/-- `d[k] = v`: replace the value at an existing key in place (insertion
order preserved, as for a Python dict), else append the new binding. -/
def setKey (fields : Fields) (k : String) (v : JValue) : Fields :=
  if fields.any (fun p => p.1 == k) then
    fields.map (fun p => if p.1 == k then (p.1, v) else p)
  else
    fields ++ [(k, v)]

/-- `m[k] = v` for a map keyed by arbitrary values under the comparison
`eqk`; the stored key object is kept on replacement, exactly as a Python
dict keeps the first-inserted key. -/
def assocUpd {κ α : Type} (eqk : κ → κ → Bool) (m : List (κ × α)) (k : κ) (v : α) :
    List (κ × α) :=
  if m.any (fun p => eqk p.1 k) then
    m.map (fun p => if eqk p.1 k then (p.1, v) else p)
  else
    m ++ [(k, v)]

/-- Lexicographic code-point comparison of character lists, the order Python
uses on strings. -/
def charListLt : List Char → List Char → Bool
  | [], [] => false
  | [], _ :: _ => true
  | _ :: _, [] => false
  | a :: as, b :: bs => if a < b then true else if b < a then false else charListLt as bs

/-- Python `<` on strings. -/
def strLtB (a b : String) : Bool :=
  charListLt a.data b.data

/-- `str.lower()`. -/
def pyLower (s : String) : String :=
  String.mk (s.data.map Char.toLower)

/-- `str.upper()`. -/
def pyUpper (s : String) : String :=
  String.mk (s.data.map Char.toUpper)

/-- `ext[1:] if ext.startswith(".") else ext`. -/
def dropDot (ext : String) : String :=
  match ext.data with
  | '.' :: rest => String.mk rest
  | _ => ext

-- ---------------------------------------------------------------------------
-- os.path.splitext and the filename parser
-- ---------------------------------------------------------------------------

/-- `os.path.splitext` (posixpath): split off the extension at the last dot
of the basename, unless every character of the basename before that dot is
itself a dot (so a leading-dot file like `.png` has no extension). -/
def splitext (p : String) : String × String :=
  let cs := p.data
  let base := (cs.reverse.takeWhile (fun c => c ≠ '/')).reverse
  let dir := cs.take (cs.length - base.length)
  let rb := base.reverse
  let afterDot := rb.takeWhile (fun c => c ≠ '.')
  if afterDot.length = rb.length then (p, "")
  else
    let beforeDot := (rb.drop (afterDot.length + 1)).reverse
    if beforeDot.all (fun c => c = '.') then (p, "")
    else (String.mk (dir ++ beforeDot), String.mk ('.' :: afterDot.reverse))

/-- The first code points of the 66 runs of ten consecutive code points
that make up the Unicode decimal-digit category Nd (the class `\\d` of a
Python `str` regex matches exactly the characters of category Nd; each
script's decimal digits 0-9 occupy ten consecutive code points, the
50-point mathematical-digits block at 120782 contributing five runs).
Table generated from the Unicode character database as shipped with
CPython 3.11 (Unicode 14.0). -/
def ndRunStarts : List Nat :=
  [48, 1632, 1776, 1984, 2406, 2534, 2662, 2790, 2918, 3046,
   3174, 3302, 3430, 3558, 3664, 3792, 3872, 4160, 4240, 6112,
   6160, 6470, 6608, 6784, 6800, 6992, 7088, 7232, 7248, 42528,
   43216, 43264, 43472, 43504, 43600, 44016, 65296, 66720, 68912, 69734,
   69872, 69942, 70096, 70384, 70736, 70864, 71248, 71360, 71472, 71904,
   72016, 72784, 73040, 73120, 92768, 92864, 93008, 120782, 120792, 120802,
   120812, 120822, 123200, 123632, 125264, 130032]

/-- The regex class `\\d`: membership in the Unicode decimal-digit category
Nd. -/
def isPyDigit (c : Char) : Bool :=
  ndRunStarts.any (fun s => decide (s ≤ c.toNat) && decide (c.toNat < s + 10))

/-- The portion of `base` that `re.match(r"^(.*?)(?:-\\d+)?$", base)` can
cover: `$` matches at the end of the string or immediately before one final
newline, so the portion is all of `base`, or all but a single trailing
newline. -/
def regexBody (base : String) : List Char :=
  if base.data.getLast? = some '\n' then base.data.dropLast else base.data

/-- The action of `re.match(r"^(.*?)(?:-\\d+)?$", base)` followed by
`m.group(1) if m else base` in `parse_ap_name_from_filename`:
* the matched portion of `base` is `regexBody base` (see there);
* neither `.` (which excludes newlines) nor `-\\d+` can consume a newline,
  so when that portion still contains one the match fails and the whole
  `base` is returned;
* on a newline-free portion the optional group can only consume a suffix
  consisting of a dash followed by one or more Nd digits running to the end
  of the portion; such a suffix exists exactly when the maximal trailing
  digit run is nonempty and preceded by a dash, it is then unique, and the
  lazy leading group prefers to let it match.  So: return the portion with
  one trailing dash-plus-digits group stripped when present. -/
def stripDashDigits (base : String) : String :=
  if (regexBody base).contains '\n' then base
  else
    match (regexBody base).reverse.takeWhile isPyDigit,
        (regexBody base).reverse.dropWhile isPyDigit with
    | _ :: _, '-' :: rest => String.mk rest.reverse
    | _, _ => String.mk (regexBody base)

/-- Whether the maximal trailing digit run of `s` is nonempty and preceded
by a dash, i.e. whether (on a newline-free name) the regex's optional group
can consume a suffix. -/
def endsWithDashDigits (s : String) : Bool :=
  match s.data.reverse.takeWhile isPyDigit, s.data.reverse.dropWhile isPyDigit with
  | _ :: _, '-' :: _ => true
  | _, _ => false

/-- `parse_ap_name_from_filename`: strip the extension, then strip one
optional trailing `-<digits>` burst suffix. -/
def parse_ap_name_from_filename (filename : String) : String :=
  stripDashDigits (splitext filename).1


-- ---------------------------------------------------------------------------
-- Index builders
-- ---------------------------------------------------------------------------

/-- `build_floor_name_to_id`: floor display name (a JSON value used as a dict
key) to floor id; floors with a falsy name are excluded, later duplicates of
a name overwrite earlier ones. -/
def build_floor_name_to_id (floorPlans : Fields) : List (JValue × JValue) :=
  (asArr (getKeyD floorPlans "floorPlans" (JValue.arr []))).foldl
    (fun m f =>
      let name := getKeyD (asObj f) "name" JValue.null
      if pyTruthy name then
        assocUpd scalarEq m name (getKeyD (asObj f) "id" JValue.null)
      else m)
    []

/-- `floor_name_to_id.get(floor_name)` composed with the `if not floor_id:`
gate of `collect_images`: the resolved floor id, present only when the
directory name has a binding carrying a truthy id. -/
def floorGate (m : List (JValue × JValue)) (name : String) : Option JValue :=
  match m.find? (fun p => strEqValue name p.1) with
  | some p => if pyTruthy p.2 then some p.2 else none
  | none => none

/-- The key type of the AP index: `(floorPlanId, apName)` as stored from the
AP records. -/
abbrev APKey := JValue × JValue

/-- Python `==` on AP-index keys (tuples compare componentwise). -/
def keyEq (a b : APKey) : Bool :=
  scalarEq a.1 b.1 && scalarEq a.2 b.2

/-- The AP index maps a key to the position of the indexed AP record inside
the `accessPoints` list (the Python dict stores a reference into that list;
the position plays the role of the reference). -/
abbrev APIndex := List (APKey × Nat)

/-- `ap.get("name")`. -/
def apName (ap : JValue) : JValue :=
  getKeyD (asObj ap) "name" JValue.null

/-- `ap.get("location", \x7b\x7d).get("floorPlanId")`. -/
def apFloorId (ap : JValue) : JValue :=
  getKeyD (asObj (getKeyD (asObj ap) "location" (JValue.obj []))) "floorPlanId" JValue.null

/-- The `if name and floor_id:` gate of `build_ap_index`. -/
def apQualifies (ap : JValue) : Bool :=
  pyTruthy (apName ap) && pyTruthy (apFloorId ap)

/-- The index key `(floor_id, name)` of an AP record. -/
def apKeyOf (ap : JValue) : APKey :=
  (apFloorId ap, apName ap)

/-- One `for ap in ...` iteration of `build_ap_index`, at list position `i`. -/
def apIndexStep (idx : APIndex) (i : Nat) (ap : JValue) : APIndex :=
  if apQualifies ap then assocUpd keyEq idx (apKeyOf ap) i else idx

def buildApIndexAux : List JValue → Nat → APIndex → APIndex
  | [], _, idx => idx
  | ap :: rest, i, idx => buildApIndexAux rest (i + 1) (apIndexStep idx i ap)

/-- `build_ap_index`: `(floorPlanId, apName) -> AP record`, an AP entering
the index only when its name and its location's floorPlanId are truthy;
later records silently overwrite earlier ones at the same key. -/
def build_ap_index (accessPoints : Fields) : APIndex :=
  buildApIndexAux (asArr (getKeyD accessPoints "accessPoints" (JValue.arr []))) 0 []

/-- `ap_index.get((floor_id, ap_name))`. -/
def apIndexGet (idx : APIndex) (k : APKey) : Option Nat :=
  (idx.find? (fun p => keyEq p.1 k)).map (fun p => p.2)

/-- The note index maps a note id (a JSON value) to the position of the note
inside the `notes` list.  In this Rule A script the index is only ever
written, never read back. -/
abbrev NoteIndex := List (JValue × Nat)

def buildNoteIndexAux : List JValue → Nat → NoteIndex → NoteIndex
  | [], _, idx => idx
  | n :: rest, i, idx =>
      let nid := getKeyD (asObj n) "id" JValue.null
      buildNoteIndexAux rest (i + 1)
        (if pyTruthy nid then assocUpd scalarEq idx nid i else idx)

/-- `build_note_index`: note id to note record, notes with a falsy id
excluded. -/
def build_note_index (notes : Fields) : NoteIndex :=
  buildNoteIndexAux (asArr (getKeyD notes "notes" (JValue.arr []))) 0 []

-- ---------------------------------------------------------------------------
-- Directory scan (collect_images)
-- ---------------------------------------------------------------------------

/-- One entry of `os.listdir(images_root)`: its name, whether it is a
directory, and (when it is) its own listing as (file name, `os.path.isfile`)
pairs. -/
structure FloorDir where
  name : String
  isDir : Bool
  files : List (String × Bool)

/-- Stable insertion step for `sorted` (ascending by file name, Python code
point order). -/
def insertByName (x : String × Bool) : List (String × Bool) → List (String × Bool)
  | [] => [x]
  | y :: ys => if strLtB y.1 x.1 then y :: insertByName x ys else x :: y :: ys

/-- `sorted(os.listdir(floor_path))` paired with the `isfile` answers. -/
def pySorted (xs : List (String × Bool)) : List (String × Bool) :=
  xs.foldr insertByName []

/-- A group key of `collect_images`: the resolved floor id and the AP name
parsed from the file name. -/
abbrev GroupKey := JValue × String

abbrev Groups := List (GroupKey × List String)

/-- `mapping.setdefault(key, []).append(full)`: extend the group of `k`, or
start it at the end of the insertion order. -/
def addToGroups (gs : Groups) (k : GroupKey) (path : String) : Groups :=
  if gs.any (fun g => scalarEq g.1.1 k.1 && g.1.2 == k.2) then
    gs.map (fun g =>
      if scalarEq g.1.1 k.1 && g.1.2 == k.2 then (g.1, g.2 ++ [path]) else g)
  else
    gs ++ [(k, [path])]

/-- The accepted image extensions. -/
def acceptedExts : List String := [".png", ".jpg", ".jpeg"]

/-- The inner file loop of `collect_images` over one matched floor.  Paths
are recorded relative to the images root (`<floorName>/<fileName>`); the
constant root prefix is dropped, which leaves `os.path.splitext` on the
basename unchanged. -/
def collectFloorFiles (floorName : String) (floorId : JValue)
    (files : List (String × Bool)) (gs : Groups) : Groups :=
  (pySorted files).foldl
    (fun gs f =>
      if !f.2 then gs
      else
        let ext := pyLower (splitext f.1).2
        if !(acceptedExts.contains ext) then gs
        else
          let apName := parse_ap_name_from_filename f.1
          addToGroups gs (floorId, apName) (floorName ++ "/" ++ f.1))
    gs

/-- One `for floor_name in os.listdir(images_root):` iteration: skip entries
that are not directories, skip (with a warning only) floors with no truthy
match in the floor index, and otherwise collect the floor's files. -/
def collectStep (floorIdx : List (JValue × JValue)) (gs : Groups) (e : FloorDir) : Groups :=
  if !e.isDir then gs
  else
    match floorGate floorIdx e.name with
    | none => gs
    | some fid => collectFloorFiles e.name fid e.files gs

/-- `collect_images`: walk the floor subdirectories, filter files to
accepted image extensions, and group the surviving paths by
`(floor id, parsed AP name)`. -/
def collect_images (root : List FloorDir) (floorIdx : List (JValue × JValue)) : Groups :=
  root.foldl (collectStep floorIdx) []

-- ---------------------------------------------------------------------------
-- images.json helpers
-- ---------------------------------------------------------------------------

/-- `init_images_data`: normalize the persisted image catalog.  A missing
file starts fresh; a loaded document without an `images` member (Python `in`:
key test on a dict, element test on a list) is either wrapped (bare list) or
given an empty `images` list (dict); a document that already carries
`images` is used as is. -/
def init_images_data (file : Option JValue) : JValue :=
  match file with
  | none => JValue.obj [("images", JValue.arr [])]
  | some data =>
    let contains : Bool :=
      match data with
      | JValue.obj fields => hasKey fields "images"
      | JValue.arr elems => elems.any (fun v => strEqValue "images" v)
      | _ => false
    if contains then data
    else
      match data with
      | JValue.arr elems => JValue.obj [("images", JValue.arr elems)]
      | JValue.obj fields =>
          JValue.obj (setKey fields "images" (getKeyD fields "images" (JValue.arr [])))
      | other => other

/-- The normalized content-format tag of `add_image_metadata`: lowercased
extension with the leading dot dropped, uppercased, defaulting to `PNG`. -/
def imageFormatOf (imgPath : String) : String :=
  let ext := dropDot (pyLower (splitext imgPath).2)
  if ext.isEmpty then "PNG" else pyUpper ext

/-- The new catalog entry of `add_image_metadata`: a deep copy of the first
existing entry as a schema template when one exists (a minimal record
otherwise), with `id`, `imageFormat` and `status` overwritten. -/
def newCatalogEntry (imagesList : List JValue) (imgId : String) (fmt : String) : Fields :=
  match imagesList with
  | t :: _ =>
      setKey (setKey (setKey (asObj t) "id" (JValue.str imgId))
        "imageFormat" (JValue.str fmt)) "status" (JValue.str "CREATED")
  | [] => [("id", JValue.str imgId), ("imageFormat", JValue.str fmt),
           ("status", JValue.str "CREATED")]

/-- `add_image_metadata`: append the new entry to
`images_data.setdefault("images", [])`. -/
def add_image_metadata (imagesData : JValue) (imgId : String) (imgPath : String) : JValue :=
  let fields := asObj imagesData
  let imagesList := asArr (getKeyD fields "images" (JValue.arr []))
  let entry := newCatalogEntry imagesList imgId (imageFormatOf imgPath)
  JValue.obj (setKey fields "images" (JValue.arr (imagesList ++ [JValue.obj entry])))

-- ---------------------------------------------------------------------------
-- Note synthesis (Rule A)
-- ---------------------------------------------------------------------------

/-- The fixed operator identity stamped on new notes. -/
def authorName : String := "Brett Melnychuk"

/-- `set_note_audit_fields`: overwrite the legacy epoch-millisecond fields
and the structured history block.  `note.get("history") or {}` yields the
existing block when it is a truthy dict and a fresh dict otherwise. -/
def set_note_audit_fields (nowMs : Int) (isoUtc : String) (note : Fields) : Fields :=
  let note := setKey note "created" (JValue.num nowMs)
  let note := setKey note "modified" (JValue.num nowMs)
  let note := setKey note "createdBy" (JValue.str authorName)
  let note := setKey note "modifiedBy" (JValue.str authorName)
  let history :=
    match getKey? note "history" with
    | some (JValue.obj fields) => fields
    | _ => []
  let history := setKey history "createdAt" (JValue.str isoUtc)
  let history := setKey history "modifiedAt" (JValue.str isoUtc)
  let history := setKey history "createdBy" (JValue.str authorName)
  let history := setKey history "modifiedBy" (JValue.str authorName)
  setKey note "history" (JValue.obj history)

/-- The note record synthesized by `create_new_note_for_ap` before the audit
stamp: a deep copy of the first existing note as a schema template when the
`notes` list is truthy (content fields cleared where present, image list
reset), a minimal record otherwise. -/
def mkNewNote (newId : String) (notesList : List JValue) : Fields :=
  match notesList with
  | t :: _ =>
      let note := setKey (asObj t) "id" (JValue.str newId)
      let note := if hasKey note "text" then setKey note "text" (JValue.str "") else note
      let note := if hasKey note "title" then setKey note "title" (JValue.str "") else note
      setKey note "imageIds" (JValue.arr [])
  | [] => [("id", JValue.str newId), ("text", JValue.str ""),
           ("imageIds", JValue.arr []), ("status", JValue.str "CREATED")]

/-- `ap.get("noteIds")` as read by `create_new_note_for_ap`: a missing or
`None` value starts a fresh list. -/
def pyNoteIds (ap : Fields) : List JValue :=
  match getKey? ap "noteIds" with
  | some (JValue.arr xs) => xs
  | _ => []

/-- `create_new_note_for_ap` (the minted uuid is passed in as `newId`):
returns the new note, the notes document with the note appended, the note
index with the new id registered at the note's position, and the AP with the
new id appended to its `noteIds`. -/
def create_new_note_for_ap (newId : String) (nowMs : Int) (isoUtc : String)
    (ap : Fields) (notesData : Fields) (noteIndex : NoteIndex) :
    Fields × Fields × NoteIndex × Fields :=
  let notesList := asArr (getKeyD notesData "notes" (JValue.arr []))
  let note := set_note_audit_fields nowMs isoUtc (mkNewNote newId notesList)
  let notesData := setKey notesData "notes" (JValue.arr (notesList ++ [JValue.obj note]))
  let noteIndex := assocUpd scalarEq noteIndex (JValue.str newId) notesList.length
  let ap := setKey ap "noteIds" (JValue.arr (pyNoteIds ap ++ [JValue.str newId]))
  (note, notesData, noteIndex, ap)

-- ---------------------------------------------------------------------------
-- The engine loop
-- ---------------------------------------------------------------------------

/-- The mutable in-memory state of `main` during the merge phase. -/
structure RunState where
  apsDoc : Fields
  notesDoc : Fields
  imagesData : JValue
  noteIndex : NoteIndex
  assets : List String
  inserted : Nat
  skipped : Nat
  uuidCount : Nat

/-- The `accessPoints` list of the loaded document. -/
def apsListOf (apsDoc : Fields) : List JValue :=
  asArr (getKeyD apsDoc "accessPoints" (JValue.arr []))

/-- The `notes` list of the loaded document. -/
def notesListOf (notesDoc : Fields) : List JValue :=
  asArr (getKeyD notesDoc "notes" (JValue.arr []))

/-- The body of the inner `for img_path in image_files:` loop: create a
brand-new note for the AP at `apPos`, mint the image id, set the note's
image list to exactly that id, write the raw asset `image-<id>`, and add the
catalog entry.  Two uuids are consumed, in the order of the source (note id
inside `create_new_note_for_ap`, then image id). -/
def insertOneImage (uuids : Nat → String) (nowMs : Int) (isoUtc : String)
    (apPos : Nat) (imgPath : String) (s : RunState) : RunState :=
  let aps := apsListOf s.apsDoc
  let ap := asObj (aps.getD apPos JValue.null)
  let newNoteId := uuids s.uuidCount
  match create_new_note_for_ap newNoteId nowMs isoUtc ap s.notesDoc s.noteIndex with
  | (note, notesData1, noteIndex1, ap1) =>
    let imgId := uuids (s.uuidCount + 1)
    let notesList1 := asArr (getKeyD notesData1 "notes" (JValue.arr []))
    let note1 := setKey note "imageIds" (JValue.arr [JValue.str imgId])
    { apsDoc := setKey s.apsDoc "accessPoints" (JValue.arr (aps.set apPos (JValue.obj ap1)))
      notesDoc := setKey notesData1 "notes" (JValue.arr (notesList1.dropLast ++ [JValue.obj note1]))
      imagesData := add_image_metadata s.imagesData imgId imgPath
      noteIndex := noteIndex1
      assets := s.assets ++ ["image-" ++ imgId]
      inserted := s.inserted + 1
      skipped := s.skipped
      uuidCount := s.uuidCount + 2 }

/-- The inner `for img_path in image_files:` loop over one resolved AP. -/
def processFiles (uuids : Nat → String) (nowMs : Int) (isoUtc : String)
    (apPos : Nat) (files : List String) (s : RunState) : RunState :=
  files.foldl (fun t p => insertOneImage uuids nowMs isoUtc apPos p t) s

/-- One iteration of `for (floor_id, ap_name), image_files in ...`: an AP
that does not resolve (no index entry, or a falsy record) adds the whole
group to the skipped count; a resolving AP gets one new note per image. -/
def processGroup (uuids : Nat → String) (nowMs : Int) (isoUtc : String)
    (apIdx : APIndex) (s : RunState) (g : GroupKey × List String) : RunState :=
  match apIndexGet apIdx (g.1.1, JValue.str g.1.2) with
  | none => { s with skipped := s.skipped + g.2.length }
  | some i =>
      if !(pyTruthy ((apsListOf s.apsDoc).getD i JValue.null)) then
        { s with skipped := s.skipped + g.2.length }
      else
        processFiles uuids nowMs isoUtc i g.2 s

/-- The engine loop over all collected groups. -/
def processGroups (uuids : Nat → String) (nowMs : Int) (isoUtc : String)
    (apIdx : APIndex) (groups : Groups) (s : RunState) : RunState :=
  groups.foldl (processGroup uuids nowMs isoUtc apIdx) s

/-- Whether a group's AP resolves against the given documents: an index hit
whose record is truthy. -/
def groupResolves (apIdx : APIndex) (aps : List JValue) (g : GroupKey × List String) : Bool :=
  match apIndexGet apIdx (g.1.1, JValue.str g.1.2) with
  | none => false
  | some i => pyTruthy (aps.getD i JValue.null)

/-- The total size of the groups whose AP does not resolve: what the engine
loop adds to the skipped counter. -/
def skippedSum (apIdx : APIndex) (aps : List JValue) (groups : Groups) : Nat :=
  (groups.map (fun g => if groupResolves apIdx aps g then 0 else g.2.length)).sum

-- ---------------------------------------------------------------------------
-- main
-- ---------------------------------------------------------------------------

/-- The exceptions `main` can raise: a missing source archive, a missing
required document inside the archive, or a missing image root directory
(raised from inside `collect_images`). -/
inductive RunError where
  | esxNotFound
  | accessPointsNotFound
  | floorPlansNotFound
  | notesNotFound
  | imagesDirNotFound
deriving DecidableEq

/-- The documents and asset files on disk after the persistence phase. -/
structure SavedDocs where
  accessPoints : Fields
  notes : Fields
  images : JValue
  assets : List String

/-- How a non-raising run of `main` ends: the early `No AP images found to
insert` return (before any document is saved and before any repacking), or
the completed path, which saves all three documents, repacks the output
archive, and prints the inserted/skipped summary. -/
inductive RunOutcome where
  | noImages
  | completed (docs : SavedDocs) (inserted : Nat) (skipped : Nat)

/-- The world `main` runs against: whether the source archive exists, the
documents found in the unpacked archive (`none` means the file is missing),
the binary assets already present, and the image root directory. -/
structure ProjectFS where
  esxExists : Bool
  accessPointsDoc : Option Fields
  floorPlansDoc : Option Fields
  notesDoc : Option Fields
  imagesDoc : Option JValue
  existingAssets : List String
  imagesRootIsDir : Bool
  imagesRoot : List FloorDir

/-- `main`: check the source archive, check the three required documents (in
source order), normalize the image catalog, build the three indexes, scan
the image directory (raising when the root is not a directory), return early
when nothing was collected, and otherwise run the merge loop, save, and
repack. -/
def mainRun (uuids : Nat → String) (nowMs : Int) (isoUtc : String)
    (fs : ProjectFS) : Except RunError RunOutcome :=
  if fs.esxExists = false then Except.error RunError.esxNotFound else
  match fs.accessPointsDoc, fs.floorPlansDoc, fs.notesDoc with
  | none, _, _ => Except.error RunError.accessPointsNotFound
  | some _, none, _ => Except.error RunError.floorPlansNotFound
  | some _, some _, none => Except.error RunError.notesNotFound
  | some apsDoc, some floorsDoc, some notesDoc =>
    let imagesData := init_images_data fs.imagesDoc
    let floorIdx := build_floor_name_to_id floorsDoc
    let apIdx := build_ap_index apsDoc
    let noteIdx := build_note_index notesDoc
    if fs.imagesRootIsDir = false then Except.error RunError.imagesDirNotFound else
    let groups := collect_images fs.imagesRoot floorIdx
    if groups.isEmpty then Except.ok RunOutcome.noImages else
    let s0 : RunState :=
      ⟨apsDoc, notesDoc, imagesData, noteIdx, fs.existingAssets, 0, 0, 0⟩
    let s1 := processGroups uuids nowMs isoUtc apIdx groups s0
    Except.ok (RunOutcome.completed ⟨s1.apsDoc, s1.notesDoc, s1.imagesData, s1.assets⟩
      s1.inserted s1.skipped)

-- Observations on run results ------------------------------------------------

/-- Whether the run raised. -/
def isError {α : Type} (r : Except RunError α) : Bool :=
  match r with
  | Except.error _ => true
  | Except.ok _ => false

/-- Whether the run reached the final `** Done. Inserted N image(s),
skipped M.` summary line (printed only on the completed path). -/
def endsWithSummary (r : Except RunError RunOutcome) : Bool :=
  match r with
  | Except.ok (RunOutcome.completed _ _ _) => true
  | _ => false

/-- Whether `repack_project` was invoked, i.e. whether an output archive was
produced: in the source this happens only after the save phase on the
completed path, never on the early `No AP images found` return. -/
def outputArchiveWritten (r : Except RunError RunOutcome) : Bool :=
  match r with
  | Except.ok (RunOutcome.completed _ _ _) => true
  | _ => false

/-- The documents written back by the save phase, when it ran at all
(`save_json` is only reached on the completed path). -/
def savedDocsOf (r : Except RunError RunOutcome) : Option SavedDocs :=
  match r with
  | Except.ok (RunOutcome.completed docs _ _) => some docs
  | _ => none

/-- The reported skipped count, when the run completed. -/
def skippedOf (r : Except RunError RunOutcome) : Option Nat :=
  match r with
  | Except.ok (RunOutcome.completed _ _ skipped) => some skipped
  | _ => none

/-- The reported inserted count, when the run completed. -/
def insertedOf (r : Except RunError RunOutcome) : Option Nat :=
  match r with
  | Except.ok (RunOutcome.completed _ inserted _) => some inserted
  | _ => none

-- Derived views used by the claims -------------------------------------------

/-- The image list of a note record. -/
def imageIdsOf (note : JValue) : List JValue :=
  asArr (getKeyD (asObj note) "imageIds" (JValue.arr []))

/-- The entry list of the (normalized) image catalog. -/
def catalogList (imagesData : JValue) : List JValue :=
  asArr (getKeyD (asObj imagesData) "images" (JValue.arr []))

/-- The ids carried by the catalog entries. -/
def catalogIds (imagesData : JValue) : List JValue :=
  (catalogList imagesData).map (fun e => getKeyD (asObj e) "id" JValue.null)

/-- Every image id referenced from any note's image list, in document
order. -/
def allNoteImageIds (notesDoc : Fields) : List JValue :=
  ((notesListOf notesDoc).map imageIdsOf).flatten

/-- Referential integrity of the aggregate: every image id referenced from a
note is a string id with a catalog entry carrying the same id and a binary
asset file named `image-<id>`. -/
def runIntegrity (notesDoc : Fields) (imagesData : JValue) (assets : List String) : Prop :=
  ∀ v ∈ allNoteImageIds notesDoc, ∃ sid, v = JValue.str sid ∧
    JValue.str sid ∈ catalogIds imagesData ∧ ("image-" ++ sid) ∈ assets
/-- The note fields the Rule A policy owns (overwrites) when cloning. -/
def noteOwnedKeys : List String :=
  ["id", "text", "title", "imageIds", "created", "modified", "createdBy",
   "modifiedBy", "history"]

/-- The catalog-entry fields `add_image_metadata` owns when cloning. -/
def entryOwnedKeys : List String := ["id", "imageFormat", "status"]

/-- The new note record appended for one image: the schema clone with the
fresh note id, the audit stamp, and the image list holding exactly the one
minted image id. -/
def newNoteRecord (uuids : Nat → String) (nowMs : Int) (isoUtc : String)
    (notesList : List JValue) (c : Nat) : JValue :=
  JValue.obj (setKey (set_note_audit_fields nowMs isoUtc
    (mkNewNote (uuids c) notesList)) "imageIds"
    (JValue.arr [JValue.str (uuids (c + 1))]))

/-- The AP record after one image: the new note id appended to `noteIds`. -/
def apAfterInsert (uuids : Nat → String) (ap : Fields) (c : Nat) : Fields :=
  setKey ap "noteIds" (JValue.arr (pyNoteIds ap ++ [JValue.str (uuids c)]))

/-- The image ids minted by a run of the inner loop starting at uuid counter
`c`: the odd-position draws. -/
def newIdsFrom (uuids : Nat → String) (c : Nat) (n : Nat) : List String :=
  (List.range n).map (fun k => uuids (c + 2 * k + 1))

/-- The merge-phase starting state of a run over the given documents. -/
def initialState (fs : ProjectFS) (apsDoc notesDoc : Fields) : RunState :=
  ⟨apsDoc, notesDoc, init_images_data fs.imagesDoc, build_note_index notesDoc,
    fs.existingAssets, 0, 0, 0⟩

-- ---------------------------------------------------------------------------
-- Concrete fixtures used by witnesses and counterexamples
-- ---------------------------------------------------------------------------

/-- A concrete injective uuid supply for concrete runs. -/
def exUuids : Nat → String := fun n => "u" ++ String.mk (List.replicate n 'x')

def exFloorPlans : Fields :=
  [("floorPlans", JValue.arr [JValue.obj
    [("id", JValue.str "f1"), ("name", JValue.str "F1")]])]

def exAccessPoints : Fields :=
  [("accessPoints", JValue.arr [JValue.obj
    [("id", JValue.str "a1"), ("name", JValue.str "AP1"),
     ("location", JValue.obj [("floorPlanId", JValue.str "f1")]),
     ("noteIds", JValue.arr [])]])]

def exNotes : Fields := [("notes", JValue.arr [])]

/-- An AP index resolving `(f1, AP1)` to position 0. -/
def exApIdx : APIndex := [((JValue.str "f1", JValue.str "AP1"), 0)]

/-- A small engine state over the fixture documents. -/
def exRunState : RunState :=
  ⟨exAccessPoints, exNotes, JValue.obj [("images", JValue.arr [])], [], [], 0, 0, 0⟩

/-- A project whose image directory holds one image under an unmatched floor
directory `Nope` and one image of `AP1` under the matched floor `F1`. -/
def exFS : ProjectFS :=
  { esxExists := true
    accessPointsDoc := some exAccessPoints
    floorPlansDoc := some exFloorPlans
    notesDoc := some exNotes
    imagesDoc := none
    existingAssets := []
    imagesRootIsDir := true
    imagesRoot := [⟨"Nope", true, [("x.png", true)]⟩, ⟨"F1", true, [("AP1.png", true)]⟩] }

/-- The same project with an empty image directory. -/
def exFSEmptyDir : ProjectFS :=
  { esxExists := true
    accessPointsDoc := some exAccessPoints
    floorPlansDoc := some exFloorPlans
    notesDoc := some exNotes
    imagesDoc := none
    existingAssets := []
    imagesRootIsDir := true
    imagesRoot := [] }

-- ---------------------------------------------------------------------------
-- Lemmas: strings and the filename parser
-- ---------------------------------------------------------------------------

theorem mk_data (s : String) : String.mk s.data = s := by
  cases s
  rfl

theorem data_append (a b : String) : (a ++ b).data = a.data ++ b.data :=
  String.data_append a b

theorem pyDigit_ne_dot {c : Char} (h : isPyDigit c = true) : c ≠ '.' := by
  intro hc
  rw [hc] at h
  exact absurd h (by decide)

theorem pyDigit_ne_slash {c : Char} (h : isPyDigit c = true) : c ≠ '/' := by
  intro hc
  rw [hc] at h
  exact absurd h (by decide)

theorem pyDigit_ne_newline {c : Char} (h : isPyDigit c = true) : c ≠ '\n' := by
  intro hc
  rw [hc] at h
  exact absurd h (by decide)

theorem getLast?_mem {α : Type} : ∀ {l : List α} {a : α}, l.getLast? = some a → a ∈ l := by
  intro l
  induction l with
  | nil =>
    intro a h
    simp at h
  | cons x xs ih =>
    intro a h
    cases xs with
    | nil =>
      simp at h
      simp [h]
    | cons y ys =>
      rw [List.getLast?_cons_cons] at h
      exact List.mem_cons_of_mem x (ih h)

theorem contains_newline_eq_false {l : List Char} (h : ∀ c ∈ l, c ≠ '\n') :
    l.contains '\n' = false := by
  simp [List.contains_eq_any_beq]
  intro x
  exact h '\n' x rfl

theorem regexBody_no_newline {s : String} (h : ∀ c ∈ s.data, c ≠ '\n') :
    regexBody s = s.data := by
  unfold regexBody
  cases hgl : s.data.getLast? with
  | none =>
    rw [if_neg (by intro hc; cases hc)]
  | some c =>
    have hc : c ≠ '\n' := h c (getLast?_mem hgl)
    rw [if_neg (by intro hcc; injection hcc with hcc; exact hc hcc)]

theorem stripDashDigits_strip (s d : String)
    (hsn : ∀ c ∈ s.data, c ≠ '\n')
    (hne : d.data ≠ []) (hd : ∀ c ∈ d.data, isPyDigit c = true) :
    stripDashDigits (s ++ "-" ++ d) = s := by
  have hdata : (s ++ "-" ++ d).data = s.data ++ '-' :: d.data := by
    simp [data_append]
  have hall : ∀ c ∈ s.data ++ '-' :: d.data, c ≠ '\n' := by
    intro c hc
    rcases List.mem_append.mp hc with hc | hc
    · exact hsn c hc
    · rcases List.mem_cons.mp hc with rfl | hc
      · decide
      · exact pyDigit_ne_newline (hd c hc)
  have hbody : regexBody (s ++ "-" ++ d) = s.data ++ '-' :: d.data := by
    rw [regexBody_no_newline (by intro c hc; exact hall c (by rw [← hdata]; exact hc)),
      hdata]
  have hcont : (s.data ++ '-' :: d.data).contains '\n' = false :=
    contains_newline_eq_false hall
  have hrev : (s.data ++ '-' :: d.data).reverse
      = d.data.reverse ++ '-' :: s.data.reverse := by
    simp
  have htake : (d.data.reverse ++ '-' :: s.data.reverse).takeWhile isPyDigit
      = d.data.reverse := by
    rw [List.takeWhile_append]
    have h1 : d.data.reverse.takeWhile isPyDigit = d.data.reverse :=
      List.takeWhile_eq_self_iff.mpr (fun c hc => hd c (List.mem_reverse.mp hc))
    rw [h1]
    simp [List.takeWhile_cons, (by decide : isPyDigit '-' = false)]
  have hdrop : (d.data.reverse ++ '-' :: s.data.reverse).dropWhile isPyDigit
      = '-' :: s.data.reverse := by
    rw [List.dropWhile_append]
    have h1 : d.data.reverse.dropWhile isPyDigit = [] :=
      List.dropWhile_eq_nil_iff.mpr (fun c hc => hd c (List.mem_reverse.mp hc))
    rw [h1]
    simp [List.dropWhile_cons, (by decide : isPyDigit '-' = false)]
  obtain ⟨a, t, hat⟩ : ∃ a t, d.data.reverse = a :: t := by
    cases hh : d.data.reverse with
    | nil => exact absurd (by simpa using congrArg List.reverse hh) hne
    | cons a t => exact ⟨a, t, rfl⟩
  unfold stripDashDigits
  rw [hbody, if_neg (by rw [hcont]; simp), hrev, htake, hdrop, hat]
  simp [mk_data]

theorem stripDashDigits_id (s : String) (hsn : ∀ c ∈ s.data, c ≠ '\n')
    (h : endsWithDashDigits s = false) : stripDashDigits s = s := by
  have hbody : regexBody s = s.data := regexBody_no_newline hsn
  have hcont : s.data.contains '\n' = false := contains_newline_eq_false hsn
  unfold stripDashDigits
  rw [hbody, if_neg (by rw [hcont]; simp)]
  unfold endsWithDashDigits at h
  split
  · rename_i heq1 heq2
    rw [heq1, heq2] at h
    simp at h
  · exact mk_data s

theorem splitext_concat (s ext : String)
    (hs : ∀ c ∈ s.data, c ≠ '/')
    (hnd : ∃ c ∈ s.data, c ≠ '.')
    (heDot : ∀ c ∈ ext.data, c ≠ '.')
    (heSlash : ∀ c ∈ ext.data, c ≠ '/') :
    splitext (s ++ "." ++ ext) = (s, "." ++ ext) := by
  have hdata : (s ++ "." ++ ext).data = s.data ++ '.' :: ext.data := by
    simp [data_append]
  have hrev : (s.data ++ '.' :: ext.data).reverse = ext.data.reverse ++ '.' :: s.data.reverse := by
    simp
  have hbase : (s.data ++ '.' :: ext.data).reverse.takeWhile (fun c => (c ≠ '/' : Bool))
      = (s.data ++ '.' :: ext.data).reverse := by
    apply List.takeWhile_eq_self_iff.mpr
    intro c hc
    simp only [List.mem_reverse, List.mem_append, List.mem_cons] at hc
    rcases hc with hc | hc | hc
    · simpa using hs c hc
    · subst hc; decide
    · simpa using heSlash c hc
  have hAfter : (s.data ++ '.' :: ext.data).reverse.takeWhile (fun c => (c ≠ '.' : Bool))
      = ext.data.reverse := by
    rw [hrev, List.takeWhile_append]
    have h1 : ext.data.reverse.takeWhile (fun c => (c ≠ '.' : Bool)) = ext.data.reverse :=
      List.takeWhile_eq_self_iff.mpr
        (fun c hc => by simpa using heDot c (List.mem_reverse.mp hc))
    rw [h1]
    simp [List.takeWhile_cons]
  have hdrop : List.drop (ext.data.reverse.length + 1) (s.data ++ '.' :: ext.data).reverse
      = s.data.reverse := by
    rw [hrev]
    have h2 : ext.data.reverse ++ '.' :: s.data.reverse
        = (ext.data.reverse ++ ['.']) ++ s.data.reverse := by simp
    have hlen : ext.data.reverse.length + 1 = (ext.data.reverse ++ ['.']).length := by simp
    rw [h2, hlen, List.drop_left]
  simp only [splitext]
  rw [hdata, hbase, List.reverse_reverse, hAfter]
  rw [if_neg (by simp)]
  rw [hdrop]
  rw [if_neg (by
    simp only [List.reverse_reverse, List.all_eq_true, not_forall]
    obtain ⟨c, hc, hcd⟩ := hnd
    exact ⟨c, hc, by simp [hcd]⟩)]
  have hc1 : String.mk (List.take ((s.data ++ '.' :: ext.data).length
      - (s.data ++ '.' :: ext.data).length) (s.data ++ '.' :: ext.data)
      ++ s.data.reverse.reverse) = s := by
    simp [mk_data]
  have hc2 : String.mk ('.' :: ext.data.reverse.reverse) = "." ++ ext := by
    apply String.ext
    simp [data_append]
  simp only [List.reverse_reverse] at hc1 hc2 ⊢
  rw [Prod.ext_iff]
  exact ⟨by simp [hc1], hc2⟩

-- ---------------------------------------------------------------------------
-- C5 and C10: the filename parser
-- ---------------------------------------------------------------------------

theorem dash_data : ("-" : String).data = ['-'] := rfl

/-- C5, counterexample: the claim guarantees that `name.ext` parses back to
`name` for EVERY base name, but a name that itself ends in a dash-digits
group loses that group: `AP-1.png` parses to `AP`, not `AP-1`. -/
theorem claim_C5_counterexample :
    parse_ap_name_from_filename "AP-1.png" = "AP" ∧ "AP" ≠ "AP-1" := by
  decide

/-- C5 (amended): for every base name containing no path separator, no
newline, and at least one non-dot character, and not itself ending in a
`-<digits>` group of Unicode decimal digits, and every extension free of
dots and separators: `name.ext` parses to `name`; and `name-<digits>.ext`
parses to `name` for every nonempty string of Unicode decimal digits
(hence for the decimal representation of every non-negative integer `n`).
The three documented examples hold. -/
theorem claim_C5_filename_parsing (name ext : String)
    (hSlash : ∀ c ∈ name.data, c ≠ '/')
    (hNL : ∀ c ∈ name.data, c ≠ '\n')
    (hNonDot : ∃ c ∈ name.data, c ≠ '.')
    (hExt : ∀ c ∈ ext.data, c ≠ '.' ∧ c ≠ '/')
    (hNoSuffix : endsWithDashDigits name = false) :
    parse_ap_name_from_filename (name ++ "." ++ ext) = name ∧
    (∀ d : String, d.data ≠ [] → (∀ c ∈ d.data, isPyDigit c = true) →
      parse_ap_name_from_filename (name ++ "-" ++ d ++ "." ++ ext) = name) ∧
    parse_ap_name_from_filename "AP1.png" = "AP1" ∧
    parse_ap_name_from_filename "AP1-2.png" = "AP1" ∧
    parse_ap_name_from_filename "Lobby Cam-10.jpg" = "Lobby Cam" := by
  refine ⟨?_, ?_, by decide, by decide, by decide⟩
  · unfold parse_ap_name_from_filename
    rw [splitext_concat name ext hSlash hNonDot
      (fun c hc => (hExt c hc).1) (fun c hc => (hExt c hc).2)]
    exact stripDashDigits_id name hNL hNoSuffix
  · intro d hne hd
    unfold parse_ap_name_from_filename
    have hs2 : ∀ c ∈ (name ++ "-" ++ d).data, c ≠ '/' := by
      intro c hc
      rw [data_append, data_append, dash_data] at hc
      rcases List.mem_append.mp hc with hc | hc
      · rcases List.mem_append.mp hc with hc | hc
        · exact hSlash c hc
        · rcases List.mem_singleton.mp hc with rfl
          decide
      · exact pyDigit_ne_slash (hd c hc)
    have hnd2 : ∃ c ∈ (name ++ "-" ++ d).data, c ≠ '.' := by
      refine ⟨'-', ?_, by decide⟩
      rw [data_append, data_append, dash_data]
      simp
    rw [splitext_concat (name ++ "-" ++ d) ext hs2 hnd2
      (fun c hc => (hExt c hc).1) (fun c hc => (hExt c hc).2)]
    exact stripDashDigits_strip name d hNL hne hd

/-- C5, witness. -/
theorem claim_C5_witness :
    parse_ap_name_from_filename ("Lobby Cam" ++ "." ++ "jpg") = "Lobby Cam" :=
  (claim_C5_filename_parsing "Lobby Cam" "jpg" (by decide) (by decide)
    (by decide) (by decide) (by decide)).1

/-- C10, counterexample: the claim reads as a guarantee for every AP name,
but a base name containing a newline defeats the regex entirely (`.` does
not match a newline, and the optional group cannot absorb one), so the
parser returns the base with NO suffix stripped: parsing `A\nB-1-2.png`
yields `A\nB-1-2`, and the name `A\nB-1` does not survive as claimed. -/
theorem claim_C10_counterexample :
    parse_ap_name_from_filename "A\nB-1-2.png" = "A\nB-1-2" ∧
    ("A\nB-1-2" : String) ≠ "A\nB-1" := by
  decide

/-- C10 (amended): for base names free of newlines the parser strips at
most one trailing `-<digits>` group, never repeatedly: a file name
`name-<d1>-<d2>.ext` whose name part has no path separator and no newline,
with both groups made of Unicode decimal digits, parses to `name-<d1>`; in
particular `AP-1-2.png` parses to `AP-1`, not `AP`. -/
theorem claim_C10_single_suffix (name d1 d2 ext : String)
    (hSlash : ∀ c ∈ name.data, c ≠ '/')
    (hNL : ∀ c ∈ name.data, c ≠ '\n')
    (hExt : ∀ c ∈ ext.data, c ≠ '.' ∧ c ≠ '/')
    (hd1 : ∀ c ∈ d1.data, isPyDigit c = true)
    (hd2ne : d2.data ≠ []) (hd2 : ∀ c ∈ d2.data, isPyDigit c = true) :
    parse_ap_name_from_filename (name ++ "-" ++ d1 ++ "-" ++ d2 ++ "." ++ ext)
      = name ++ "-" ++ d1 ∧
    parse_ap_name_from_filename "AP-1-2.png" = "AP-1" ∧
    parse_ap_name_from_filename "AP-1-2.png" ≠ "AP" := by
  refine ⟨?_, by decide, by decide⟩
  unfold parse_ap_name_from_filename
  have hs2 : ∀ c ∈ (name ++ "-" ++ d1 ++ "-" ++ d2).data, c ≠ '/' := by
    intro c hc
    rw [data_append, data_append, data_append, data_append, dash_data] at hc
    rcases List.mem_append.mp hc with hc | hc
    · rcases List.mem_append.mp hc with hc | hc
      · rcases List.mem_append.mp hc with hc | hc
        · rcases List.mem_append.mp hc with hc | hc
          · exact hSlash c hc
          · rcases List.mem_singleton.mp hc with rfl
            decide
        · exact pyDigit_ne_slash (hd1 c hc)
      · rcases List.mem_singleton.mp hc with rfl
        decide
    · exact pyDigit_ne_slash (hd2 c hc)
  have hnd2 : ∃ c ∈ (name ++ "-" ++ d1 ++ "-" ++ d2).data, c ≠ '.' := by
    refine ⟨'-', ?_, by decide⟩
    rw [data_append, data_append, data_append, data_append, dash_data]
    simp
  have hNL1 : ∀ c ∈ (name ++ "-" ++ d1).data, c ≠ '\n' := by
    intro c hc
    rw [data_append, data_append, dash_data] at hc
    rcases List.mem_append.mp hc with hc | hc
    · rcases List.mem_append.mp hc with hc | hc
      · exact hNL c hc
      · rcases List.mem_singleton.mp hc with rfl
        decide
    · exact pyDigit_ne_newline (hd1 c hc)
  rw [splitext_concat (name ++ "-" ++ d1 ++ "-" ++ d2) ext hs2 hnd2
    (fun c hc => (hExt c hc).1) (fun c hc => (hExt c hc).2)]
  exact stripDashDigits_strip (name ++ "-" ++ d1) d2 hNL1 hd2ne hd2

/-- C10, witness. -/
theorem claim_C10_witness :
    parse_ap_name_from_filename ("AP" ++ "-" ++ "1" ++ "-" ++ "2" ++ "." ++ "png")
      = "AP" ++ "-" ++ "1" :=
  (claim_C10_single_suffix "AP" "1" "2" "png" (by decide) (by decide) (by decide)
    (by decide) (by decide) (by decide)).1

-- ---------------------------------------------------------------------------
-- Dictionary lemmas
-- ---------------------------------------------------------------------------

theorem find?_setter_map_self (fields : Fields) (k : String) (v : JValue)
    (h : fields.any (fun p => p.1 == k) = true) :
    ∃ k0, (fields.map (fun p => if p.1 == k then (p.1, v) else p)).find?
      (fun p => p.1 == k) = some (k0, v) := by
  induction fields with
  | nil => simp at h
  | cons p rest ih =>
    by_cases hp : (p.1 == k) = true
    · refine ⟨p.1, ?_⟩
      rw [List.map_cons, if_pos hp,
        @List.find?_cons_of_pos _ (fun q => q.1 == k) (p.1, v) _ hp]
    · have h' : rest.any (fun q => q.1 == k) = true := by
        rcases List.any_eq_true.mp h with ⟨q, hq, hqk⟩
        rcases List.mem_cons.mp hq with rfl | hq2
        · exact absurd hqk hp
        · exact List.any_eq_true.mpr ⟨q, hq2, hqk⟩
      obtain ⟨k0, hk0⟩ := ih h'
      refine ⟨k0, ?_⟩
      rw [List.map_cons, if_neg hp,
        @List.find?_cons_of_neg _ (fun q => q.1 == k) p _ hp]
      exact hk0

theorem find?_setter_map_ne (fields : Fields) (k k' : String) (v : JValue) (h : k' ≠ k) :
    (fields.map (fun p => if p.1 == k then (p.1, v) else p)).find? (fun p => p.1 == k')
      = fields.find? (fun p => p.1 == k') := by
  induction fields with
  | nil => rfl
  | cons p rest ih =>
    by_cases hp : (p.1 == k') = true
    · have hpk : (p.1 == k) = false := by
        have he : p.1 = k' := by simpa using hp
        simp [he, h]
      rw [List.map_cons, if_neg (by simp [hpk]),
        @List.find?_cons_of_pos _ (fun q => q.1 == k') p _ hp,
        @List.find?_cons_of_pos _ (fun q => q.1 == k') p _ hp]
    · by_cases hk : (p.1 == k) = true
      · rw [List.map_cons, if_pos hk,
          @List.find?_cons_of_neg _ (fun q => q.1 == k') (p.1, v) _ hp,
          @List.find?_cons_of_neg _ (fun q => q.1 == k') p _ hp]
        exact ih
      · rw [List.map_cons, if_neg hk,
          @List.find?_cons_of_neg _ (fun q => q.1 == k') p _ hp,
          @List.find?_cons_of_neg _ (fun q => q.1 == k') p _ hp]
        exact ih

theorem getKey?_setKey_self (fields : Fields) (k : String) (v : JValue) :
    getKey? (setKey fields k v) k = some v := by
  unfold setKey
  split
  · rename_i h
    obtain ⟨k0, hk0⟩ := find?_setter_map_self fields k v h
    unfold getKey?
    rw [hk0]
    rfl
  · rename_i h
    unfold getKey?
    rw [List.find?_append]
    have hnone : fields.find? (fun p => p.1 == k) = none := by
      rw [List.find?_eq_none]
      intro p hp
      by_contra hc
      exact h (List.any_eq_true.mpr ⟨p, hp, by simpa using hc⟩)
    simp [hnone, List.find?]

theorem getKey?_setKey_ne (fields : Fields) (k k' : String) (v : JValue) (h : k' ≠ k) :
    getKey? (setKey fields k v) k' = getKey? fields k' := by
  unfold setKey
  split
  · unfold getKey?
    rw [find?_setter_map_ne fields k k' v h]
  · unfold getKey?
    rw [List.find?_append]
    cases hf : fields.find? (fun p => p.1 == k') with
    | some p => simp
    | none =>
      have hkk : (k == k') = false := by
        simp only [beq_eq_false_iff_ne, ne_eq]
        exact fun hh => h hh.symm
      simp [List.find?, hkk]

theorem hasKey_setKey_of (fields : Fields) (k k' : String) (v : JValue)
    (h : hasKey fields k' = true) : hasKey (setKey fields k v) k' = true := by
  unfold setKey hasKey at *
  split
  · rw [List.any_map]
    obtain ⟨p, hp, hpk⟩ := List.any_eq_true.mp h
    refine List.any_eq_true.mpr ⟨p, hp, ?_⟩
    by_cases h2 : (p.1 == k) = true
    · show ((if p.1 == k then (p.1, v) else p).1 == k') = true
      rw [if_pos h2]
      exact hpk
    · show ((if p.1 == k then (p.1, v) else p).1 == k') = true
      rw [if_neg h2]
      exact hpk
  · rw [List.any_append]
    simp [h]

-- ---------------------------------------------------------------------------
-- C8: schema cloning is a frame operation
-- ---------------------------------------------------------------------------

theorem set_note_audit_frame (nowMs : Int) (isoUtc : String) (fields : Fields)
    (k : String) (h1 : k ≠ "created") (h2 : k ≠ "modified") (h3 : k ≠ "createdBy")
    (h4 : k ≠ "modifiedBy") (h5 : k ≠ "history") :
    getKey? (set_note_audit_fields nowMs isoUtc fields) k = getKey? fields k := by
  simp only [set_note_audit_fields]
  rw [getKey?_setKey_ne _ _ _ _ h5, getKey?_setKey_ne _ _ _ _ h4,
    getKey?_setKey_ne _ _ _ _ h3, getKey?_setKey_ne _ _ _ _ h2,
    getKey?_setKey_ne _ _ _ _ h1]

theorem set_note_audit_keys (nowMs : Int) (isoUtc : String) (fields : Fields)
    (k : String) (h : hasKey fields k = true) :
    hasKey (set_note_audit_fields nowMs isoUtc fields) k = true := by
  simp only [set_note_audit_fields]
  exact hasKey_setKey_of _ _ _ _ (hasKey_setKey_of _ _ _ _ (hasKey_setKey_of _ _ _ _
    (hasKey_setKey_of _ _ _ _ (hasKey_setKey_of _ _ _ _ h))))

theorem mkNewNote_frame (newId : String) (t : JValue) (rest : List JValue)
    (k : String) (hid : k ≠ "id") (htext : k ≠ "text") (htitle : k ≠ "title")
    (himg : k ≠ "imageIds") :
    getKey? (mkNewNote newId (t :: rest)) k = getKey? (asObj t) k := by
  simp only [mkNewNote]
  rw [getKey?_setKey_ne _ _ _ _ himg]
  split
  · split
    · rw [getKey?_setKey_ne _ _ _ _ htitle, getKey?_setKey_ne _ _ _ _ htext,
        getKey?_setKey_ne _ _ _ _ hid]
    · rw [getKey?_setKey_ne _ _ _ _ htext, getKey?_setKey_ne _ _ _ _ hid]
  · split
    · rw [getKey?_setKey_ne _ _ _ _ htitle, getKey?_setKey_ne _ _ _ _ hid]
    · rw [getKey?_setKey_ne _ _ _ _ hid]

theorem mkNewNote_keys (newId : String) (t : JValue) (rest : List JValue)
    (k : String) (h : hasKey (asObj t) k = true) :
    hasKey (mkNewNote newId (t :: rest)) k = true := by
  simp only [mkNewNote]
  apply hasKey_setKey_of
  split
  · split
    · exact hasKey_setKey_of _ _ _ _ (hasKey_setKey_of _ _ _ _
        (hasKey_setKey_of _ _ _ _ h))
    · exact hasKey_setKey_of _ _ _ _ (hasKey_setKey_of _ _ _ _ h)
  · split
    · exact hasKey_setKey_of _ _ _ _ (hasKey_setKey_of _ _ _ _ h)
    · exact hasKey_setKey_of _ _ _ _ h

/-- C8: when a new note or a new catalog entry is synthesized by cloning an
existing record as a template, every field of the template is present in the
new record, and only the owned fields (for notes: `id`, `text`/`title` where
present, `imageIds`, the audit fields and the history block; for catalog
entries: `id`, `imageFormat`, `status`) are overwritten; every other
template field keeps its template value. -/
theorem claim_C8_schema_clone_frame
    (newId : String) (nowMs : Int) (isoUtc : String)
    (ap notesData : Fields) (noteIndex : NoteIndex)
    (t : JValue) (rest : List JValue) (hnotes : notesListOf notesData = t :: rest)
    (imgsList : List JValue) (e : JValue) (erest : List JValue)
    (himgs : imgsList = e :: erest) (imgId fmt : String) :
    (∀ k, hasKey (asObj t) k = true →
        hasKey (create_new_note_for_ap newId nowMs isoUtc ap notesData noteIndex).1 k = true) ∧
    (∀ k, k ∉ noteOwnedKeys →
        getKey? (create_new_note_for_ap newId nowMs isoUtc ap notesData noteIndex).1 k
          = getKey? (asObj t) k) ∧
    (∀ k, hasKey (asObj e) k = true →
        hasKey (newCatalogEntry imgsList imgId fmt) k = true) ∧
    (∀ k, k ∉ entryOwnedKeys →
        getKey? (newCatalogEntry imgsList imgId fmt) k = getKey? (asObj e) k) := by
  subst himgs
  have hnote : (create_new_note_for_ap newId nowMs isoUtc ap notesData noteIndex).1
      = set_note_audit_fields nowMs isoUtc (mkNewNote newId (t :: rest)) := by
    simp only [create_new_note_for_ap]
    rw [show asArr (getKeyD notesData "notes" (JValue.arr [])) = t :: rest from hnotes]
  refine ⟨?_, ?_, ?_, ?_⟩
  · intro k hk
    rw [hnote]
    exact set_note_audit_keys _ _ _ _ (mkNewNote_keys _ _ _ _ hk)
  · intro k hk
    simp only [noteOwnedKeys, List.mem_cons, not_or] at hk
    obtain ⟨h1, h2, h3, h4, h5, h6, h7, h8, h9, _⟩ := hk
    rw [hnote, set_note_audit_frame _ _ _ _ h5 h6 h7 h8 h9,
      mkNewNote_frame _ _ _ _ h1 h2 h3 h4]
  · intro k hk
    simp only [newCatalogEntry]
    exact hasKey_setKey_of _ _ _ _ (hasKey_setKey_of _ _ _ _ (hasKey_setKey_of _ _ _ _ hk))
  · intro k hk
    simp only [entryOwnedKeys, List.mem_cons, not_or] at hk
    obtain ⟨h1, h2, h3, _⟩ := hk
    simp only [newCatalogEntry]
    rw [getKey?_setKey_ne _ _ _ _ h3, getKey?_setKey_ne _ _ _ _ h2,
      getKey?_setKey_ne _ _ _ _ h1]

/-- C8, witness: a template catalog entry's unowned `resolutionWidth` field
survives cloning with its template value, at a concrete input. -/
theorem claim_C8_witness :
    getKey? (newCatalogEntry
        [JValue.obj [("id", JValue.str "old"), ("resolutionWidth", JValue.num 640)]]
        "newid" "PNG") "resolutionWidth"
      = some (JValue.num 640) := by
  have h := (claim_C8_schema_clone_frame "nid" 0 "t" [] [("notes",
      JValue.arr [JValue.obj [("id", JValue.str "n0")]])] []
      (JValue.obj [("id", JValue.str "n0")]) [] rfl
      [JValue.obj [("id", JValue.str "old"), ("resolutionWidth", JValue.num 640)]]
      (JValue.obj [("id", JValue.str "old"), ("resolutionWidth", JValue.num 640)]) []
      rfl "newid" "PNG").2.2.2 "resolutionWidth" (by decide)
  rw [h]
  rfl

-- ---------------------------------------------------------------------------
-- C9: AP index construction
-- ---------------------------------------------------------------------------

theorem scalarEq_symm (a b : JValue) : scalarEq a b = scalarEq b a := by
  cases a <;> cases b <;> simp [scalarEq, beq_iff_eq, eq_comm]

theorem scalarEq_trans {a b c : JValue} (h1 : scalarEq a b = true)
    (h2 : scalarEq b c = true) : scalarEq a c = true := by
  cases a <;> cases b <;> cases c <;>
    first
    | (simp_all [scalarEq, beq_iff_eq]; done)
    | (rename_i b1 n b2; cases b1 <;> cases b2 <;> simp_all [scalarEq, beq_iff_eq])

theorem keyEq_symm (a b : APKey) : keyEq a b = keyEq b a := by
  unfold keyEq
  rw [scalarEq_symm a.1 b.1, scalarEq_symm a.2 b.2]

theorem keyEq_trans {a b c : APKey} (h1 : keyEq a b = true) (h2 : keyEq b c = true) :
    keyEq a c = true := by
  simp only [keyEq, Bool.and_eq_true] at h1 h2 ⊢
  exact ⟨scalarEq_trans h1.1 h2.1, scalarEq_trans h1.2 h2.2⟩

theorem apIndexGet_upd_eq (idx : APIndex) (k k' : APKey) (v : Nat)
    (h : keyEq k k' = true) :
    apIndexGet (assocUpd keyEq idx k v) k' = some v := by
  unfold assocUpd
  split
  · rename_i hany
    induction idx with
    | nil => simp at hany
    | cons p rest ih =>
      by_cases hp : keyEq p.1 k = true
      · have hppk' : keyEq p.1 k' = true := keyEq_trans hp h
        unfold apIndexGet
        rw [List.map_cons, if_pos hp,
          @List.find?_cons_of_pos _ (fun q => keyEq q.1 k') (p.1, v) _ hppk']
        rfl
      · have h' : rest.any (fun q => keyEq q.1 k) = true := by
          rcases List.any_eq_true.mp hany with ⟨q, hq, hqk⟩
          rcases List.mem_cons.mp hq with rfl | hq2
          · exact absurd hqk hp
          · exact List.any_eq_true.mpr ⟨q, hq2, hqk⟩
        have hpk' : ¬(keyEq p.1 k' = true) := by
          intro hc
          exact hp (keyEq_trans hc (by rw [keyEq_symm]; exact h))
        unfold apIndexGet at ih ⊢
        rw [List.map_cons, if_neg hp,
          @List.find?_cons_of_neg _ (fun q => keyEq q.1 k') p _ hpk']
        exact ih h'
  · rename_i hany
    unfold apIndexGet
    rw [List.find?_append]
    have hnone : idx.find? (fun q => keyEq q.1 k') = none := by
      rw [List.find?_eq_none]
      intro q hq
      intro hc
      apply hany
      refine List.any_eq_true.mpr ⟨q, hq, ?_⟩
      exact keyEq_trans (by simpa using hc) (by rw [keyEq_symm]; exact h)
    rw [hnone]
    simp only [Option.none_or]
    rw [@List.find?_cons_of_pos _ (fun q => keyEq q.1 k') (k, v) _ h]
    rfl

theorem find?_keyUpd_map_ne (idx : APIndex) (k k' : APKey) (v : Nat)
    (h : keyEq k k' = false) :
    (idx.map (fun p => if keyEq p.1 k then (p.1, v) else p)).find?
      (fun q => keyEq q.1 k') = idx.find? (fun q => keyEq q.1 k') := by
  induction idx with
  | nil => rfl
  | cons p rest ih =>
    by_cases hp : keyEq p.1 k = true
    · have hpk' : ¬(keyEq p.1 k' = true) := by
        intro hc
        have hkk : keyEq k k' = true := keyEq_trans (by rw [keyEq_symm]; exact hp) hc
        rw [hkk] at h
        simp at h
      rw [List.map_cons, if_pos hp,
        @List.find?_cons_of_neg _ (fun q => keyEq q.1 k') (p.1, v) _ hpk',
        @List.find?_cons_of_neg _ (fun q => keyEq q.1 k') p _ hpk']
      exact ih
    · by_cases hq : keyEq p.1 k' = true
      · rw [List.map_cons, if_neg hp,
          @List.find?_cons_of_pos _ (fun q => keyEq q.1 k') p _ hq,
          @List.find?_cons_of_pos _ (fun q => keyEq q.1 k') p _ hq]
      · rw [List.map_cons, if_neg hp,
          @List.find?_cons_of_neg _ (fun q => keyEq q.1 k') p _ hq,
          @List.find?_cons_of_neg _ (fun q => keyEq q.1 k') p _ hq]
        exact ih

theorem apIndexGet_upd_ne (idx : APIndex) (k k' : APKey) (v : Nat)
    (h : keyEq k k' = false) :
    apIndexGet (assocUpd keyEq idx k v) k' = apIndexGet idx k' := by
  unfold assocUpd
  split
  · unfold apIndexGet
    rw [find?_keyUpd_map_ne idx k k' v h]
  · unfold apIndexGet
    rw [List.find?_append]
    have h2 : List.find? (fun q => keyEq q.1 k') [(k, v)] = none := by
      simp [List.find?, h]
    rw [h2]
    cases idx.find? (fun q => keyEq q.1 k') <;> rfl

theorem buildApIndexAux_spec (l : List JValue) (i0 : Nat) (idx : APIndex)
    (k : APKey) (i : Nat)
    (h : apIndexGet (buildApIndexAux l i0 idx) k = some i) :
    (∃ j ap, l[j]? = some ap ∧ i = i0 + j ∧ apQualifies ap = true ∧
        keyEq (apKeyOf ap) k = true ∧
        (∀ (j' : Nat) (ap' : JValue), j < j' → l[j']? = some ap' →
          apQualifies ap' = true → keyEq (apKeyOf ap') k = false)) ∨
    (apIndexGet idx k = some i ∧
      (∀ (j' : Nat) (ap' : JValue), l[j']? = some ap' → apQualifies ap' = true →
        keyEq (apKeyOf ap') k = false)) := by
  induction l generalizing i0 idx with
  | nil =>
    right
    refine ⟨h, ?_⟩
    intro j' ap' hj'
    simp at hj'
  | cons ap rest ih =>
    rcases ih (i0 + 1) (apIndexStep idx i0 ap) h with
      ⟨j, ap1, hj, hi, hq, hk, hafter⟩ | ⟨hidx, hnone⟩
    · left
      refine ⟨j + 1, ap1, by simpa using hj, by omega, hq, hk, ?_⟩
      intro j' ap' hj' hget hq'
      cases j' with
      | zero => omega
      | succ j'' =>
        exact hafter j'' ap' (by omega) (by simpa using hget) hq'
    · by_cases hqa : apQualifies ap = true
      · by_cases hka : keyEq (apKeyOf ap) k = true
        · have hstep : apIndexGet (apIndexStep idx i0 ap) k = some i0 := by
            unfold apIndexStep
            rw [if_pos hqa]
            exact apIndexGet_upd_eq idx (apKeyOf ap) k i0 hka
          left
          refine ⟨0, ap, by simp, ?_, hqa, hka, ?_⟩
          · rw [hstep] at hidx
            have := Option.some.inj hidx
            omega
          · intro j' ap' hj' hget hq'
            cases j' with
            | zero => omega
            | succ j'' =>
              exact hnone j'' ap' (by simpa using hget) hq'
        · right
          have hka' : keyEq (apKeyOf ap) k = false := by
            cases hc : keyEq (apKeyOf ap) k
            · rfl
            · exact absurd hc hka
          constructor
          · rw [← hidx]
            unfold apIndexStep
            rw [if_pos hqa, apIndexGet_upd_ne _ _ _ _ hka']
          · intro j' ap' hget hq'
            cases j' with
            | zero =>
              have heq : ap = ap' := by simpa using hget
              rw [← heq]
              exact hka'
            | succ j'' =>
              exact hnone j'' ap' (by simpa using hget) hq'
      · right
        have hqa' : apQualifies ap = false := by
          cases hc : apQualifies ap
          · rfl
          · exact absurd hc hqa
        constructor
        · rw [← hidx]
          unfold apIndexStep
          rw [if_neg hqa]
        · intro j' ap' hget hq'
          cases j' with
          | zero =>
            have heq : ap = ap' := by simpa using hget
            rw [← heq] at hq'
            exact absurd hq' hqa
          | succ j'' =>
            exact hnone j'' ap' (by simpa using hget) hq'

/-- C9: an AP record is entered into the index only when both its name and
its location's floorPlanId are present (truthy), and when two records share
the same `(floor id, name)` key the later one silently replaces the earlier:
a key that resolves resolves to the LAST qualifying record carrying it, and
no record after the resolved position carries the same key. -/
theorem claim_C9_ap_index (accessPoints : Fields) (k : APKey) (i : Nat)
    (h : apIndexGet (build_ap_index accessPoints) k = some i) :
    ∃ ap, (apsListOf accessPoints)[i]? = some ap ∧
      pyTruthy (apName ap) = true ∧ pyTruthy (apFloorId ap) = true ∧
      keyEq (apKeyOf ap) k = true ∧
      (∀ j ap', i < j → (apsListOf accessPoints)[j]? = some ap' →
        apQualifies ap' = true → keyEq (apKeyOf ap') k = false) := by
  unfold build_ap_index at h
  rcases buildApIndexAux_spec _ 0 [] k i h with
    ⟨j, ap, hj, hi, hq, hk, hafter⟩ | ⟨hidx, _⟩
  · refine ⟨ap, ?_, ?_, ?_, hk, ?_⟩
    · rw [hi]
      simpa using hj
    · exact (Bool.and_eq_true _ _ ▸ hq).1
    · exact (Bool.and_eq_true _ _ ▸ hq).2
    · intro j' ap' hj' hget hq'
      exact hafter j' ap' (by omega) hget hq'
  · simp [apIndexGet] at hidx

/-- C9, witness: with two APs sharing the key `(f1, AP1)`, the index
resolves to the second (position 1), never the first. -/
theorem claim_C9_witness :
    ∃ ap, (apsListOf
        [("accessPoints", JValue.arr
          [JValue.obj [("id", JValue.str "a1"), ("name", JValue.str "AP1"),
            ("location", JValue.obj [("floorPlanId", JValue.str "f1")])],
           JValue.obj [("id", JValue.str "a2"), ("name", JValue.str "AP1"),
            ("location", JValue.obj [("floorPlanId", JValue.str "f1")])]])])[1]?
      = some ap ∧
      pyTruthy (apName ap) = true ∧ pyTruthy (apFloorId ap) = true ∧
      keyEq (apKeyOf ap) (JValue.str "f1", JValue.str "AP1") = true ∧
      (∀ j ap', 1 < j → (apsListOf
        [("accessPoints", JValue.arr
          [JValue.obj [("id", JValue.str "a1"), ("name", JValue.str "AP1"),
            ("location", JValue.obj [("floorPlanId", JValue.str "f1")])],
           JValue.obj [("id", JValue.str "a2"), ("name", JValue.str "AP1"),
            ("location", JValue.obj [("floorPlanId", JValue.str "f1")])]])])[j]?
        = some ap' → apQualifies ap' = true →
        keyEq (apKeyOf ap') (JValue.str "f1", JValue.str "AP1") = false) :=
  claim_C9_ap_index _ (JValue.str "f1", JValue.str "AP1") 1 rfl

-- ---------------------------------------------------------------------------
-- The engine step, characterized
-- ---------------------------------------------------------------------------

theorem hasKey_setKey_self (fields : Fields) (k : String) (v : JValue) :
    hasKey (setKey fields k v) k = true := by
  unfold setKey hasKey
  split
  · rename_i h
    rw [List.any_map]
    obtain ⟨p, hp, hpk⟩ := List.any_eq_true.mp h
    refine List.any_eq_true.mpr ⟨p, hp, ?_⟩
    show ((if p.1 == k then (p.1, v) else p).1 == k) = true
    rw [if_pos hpk]
    exact hpk
  · rw [List.any_append]
    simp

theorem notesListOf_setKey (d : Fields) (v : JValue) :
    notesListOf (setKey d "notes" v) = asArr v := by
  unfold notesListOf getKeyD
  rw [getKey?_setKey_self]
  rfl

theorem apsListOf_setKey (d : Fields) (v : JValue) :
    apsListOf (setKey d "accessPoints" v) = asArr v := by
  unfold apsListOf getKeyD
  rw [getKey?_setKey_self]
  rfl

theorem catalogList_setKey (fields : Fields) (v : JValue) :
    catalogList (JValue.obj (setKey fields "images" v)) = asArr v := by
  unfold catalogList getKeyD asObj
  rw [getKey?_setKey_self]
  rfl

theorem insertOneImage_spec (uuids : Nat → String) (nowMs : Int) (isoUtc : String)
    (apPos : Nat) (imgPath : String) (s : RunState) :
    notesListOf (insertOneImage uuids nowMs isoUtc apPos imgPath s).notesDoc
      = notesListOf s.notesDoc
        ++ [newNoteRecord uuids nowMs isoUtc (notesListOf s.notesDoc) s.uuidCount] ∧
    apsListOf (insertOneImage uuids nowMs isoUtc apPos imgPath s).apsDoc
      = (apsListOf s.apsDoc).set apPos (JValue.obj (apAfterInsert uuids
          (asObj ((apsListOf s.apsDoc).getD apPos JValue.null)) s.uuidCount)) ∧
    catalogList (insertOneImage uuids nowMs isoUtc apPos imgPath s).imagesData
      = catalogList s.imagesData
        ++ [JValue.obj (newCatalogEntry (catalogList s.imagesData)
            (uuids (s.uuidCount + 1)) (imageFormatOf imgPath))] ∧
    (insertOneImage uuids nowMs isoUtc apPos imgPath s).assets
      = s.assets ++ ["image-" ++ uuids (s.uuidCount + 1)] ∧
    (insertOneImage uuids nowMs isoUtc apPos imgPath s).inserted = s.inserted + 1 ∧
    (insertOneImage uuids nowMs isoUtc apPos imgPath s).skipped = s.skipped ∧
    (insertOneImage uuids nowMs isoUtc apPos imgPath s).uuidCount = s.uuidCount + 2 ∧
    (∃ flds, (insertOneImage uuids nowMs isoUtc apPos imgPath s).imagesData
      = JValue.obj flds ∧ hasKey flds "images" = true) := by
  simp only [insertOneImage, create_new_note_for_ap, add_image_metadata]
  refine ⟨?_, ?_, ?_, trivial, trivial, trivial, trivial, ?_⟩
  · rw [notesListOf_setKey]
    show (asArr (getKeyD (setKey s.notesDoc "notes" (JValue.arr (notesListOf s.notesDoc
      ++ [JValue.obj (set_note_audit_fields nowMs isoUtc
        (mkNewNote (uuids s.uuidCount) (notesListOf s.notesDoc)))]))) "notes"
      (JValue.arr []))).dropLast ++ _ = _
    rw [show (getKeyD (setKey s.notesDoc "notes" (JValue.arr (notesListOf s.notesDoc
      ++ [JValue.obj (set_note_audit_fields nowMs isoUtc
        (mkNewNote (uuids s.uuidCount) (notesListOf s.notesDoc)))]))) "notes"
      (JValue.arr [])) = JValue.arr (notesListOf s.notesDoc
      ++ [JValue.obj (set_note_audit_fields nowMs isoUtc
        (mkNewNote (uuids s.uuidCount) (notesListOf s.notesDoc)))]) from by
      unfold getKeyD
      rw [getKey?_setKey_self]
      rfl]
    show (notesListOf s.notesDoc ++ [_]).dropLast ++ _ = _
    rw [List.dropLast_concat]
    rfl
  · rw [apsListOf_setKey]
    rfl
  · rw [catalogList_setKey]
    rfl
  · refine ⟨_, rfl, ?_⟩
    exact hasKey_setKey_self _ _ _

theorem imageIdsOf_newNoteRecord (uuids : Nat → String) (nowMs : Int) (isoUtc : String)
    (notesList : List JValue) (c : Nat) :
    imageIdsOf (newNoteRecord uuids nowMs isoUtc notesList c)
      = [JValue.str (uuids (c + 1))] := by
  unfold newNoteRecord imageIdsOf getKeyD asObj
  rw [getKey?_setKey_self]
  rfl

theorem pyNoteIds_apAfterInsert (uuids : Nat → String) (ap : Fields) (c : Nat) :
    pyNoteIds (apAfterInsert uuids ap c) = pyNoteIds ap ++ [JValue.str (uuids c)] := by
  unfold apAfterInsert pyNoteIds
  rw [getKey?_setKey_self]

theorem newCatalogEntry_id (l : List JValue) (imgId fmt : String) :
    getKey? (newCatalogEntry l imgId fmt) "id" = some (JValue.str imgId) := by
  unfold newCatalogEntry
  cases l with
  | nil => rfl
  | cons t rest =>
    rw [getKey?_setKey_ne _ _ _ _ (by decide), getKey?_setKey_ne _ _ _ _ (by decide),
      getKey?_setKey_self]

theorem newIdsFrom_succ (uuids : Nat → String) (c n : Nat) :
    newIdsFrom uuids c (n + 1) = uuids (c + 1) :: newIdsFrom uuids (c + 2) n := by
  unfold newIdsFrom
  rw [List.range_succ_eq_map, List.map_cons, List.map_map]
  have hf : ((fun k => uuids (c + 2 * k + 1)) ∘ Nat.succ)
      = (fun k => uuids (c + 2 + 2 * k + 1)) := by
    funext k
    show uuids (c + 2 * (k + 1) + 1) = uuids (c + 2 + 2 * k + 1)
    congr 1
    omega
  rw [hf]


theorem allNoteImageIds_of_append (d : Fields) (X : List JValue)
    (hn : notesListOf d = X) : allNoteImageIds d = (X.map imageIdsOf).flatten := by
  unfold allNoteImageIds
  rw [hn]

theorem processFiles_spec (uuids : Nat → String) (nowMs : Int) (isoUtc : String)
    (apPos : Nat) :
    ∀ (files : List String) (s : RunState),
    apPos < (apsListOf s.apsDoc).length →
    (∃ L, notesListOf (processFiles uuids nowMs isoUtc apPos files s).notesDoc
        = notesListOf s.notesDoc ++ L ∧ L.length = files.length ∧
        (∀ k, k < files.length → imageIdsOf (L.getD k JValue.null)
          = [JValue.str (uuids (s.uuidCount + 2 * k + 1))])) ∧
    (apsListOf (processFiles uuids nowMs isoUtc apPos files s).apsDoc).length
      = (apsListOf s.apsDoc).length ∧
    (pyNoteIds (asObj ((apsListOf (processFiles uuids nowMs isoUtc apPos files s).apsDoc).getD
        apPos JValue.null))).length
      = (pyNoteIds (asObj ((apsListOf s.apsDoc).getD apPos JValue.null))).length
        + files.length ∧
    (∀ j, j ≠ apPos →
      (apsListOf (processFiles uuids nowMs isoUtc apPos files s).apsDoc).getD j JValue.null
        = (apsListOf s.apsDoc).getD j JValue.null) ∧
    allNoteImageIds (processFiles uuids nowMs isoUtc apPos files s).notesDoc
      = allNoteImageIds s.notesDoc
        ++ (newIdsFrom uuids s.uuidCount files.length).map JValue.str ∧
    catalogIds (processFiles uuids nowMs isoUtc apPos files s).imagesData
      = catalogIds s.imagesData
        ++ (newIdsFrom uuids s.uuidCount files.length).map JValue.str ∧
    (catalogList (processFiles uuids nowMs isoUtc apPos files s).imagesData).length
      = (catalogList s.imagesData).length + files.length ∧
    (processFiles uuids nowMs isoUtc apPos files s).assets
      = s.assets ++ (newIdsFrom uuids s.uuidCount files.length).map
          (fun i => "image-" ++ i) ∧
    (processFiles uuids nowMs isoUtc apPos files s).inserted
      = s.inserted + files.length ∧
    (processFiles uuids nowMs isoUtc apPos files s).skipped = s.skipped ∧
    (processFiles uuids nowMs isoUtc apPos files s).uuidCount
      = s.uuidCount + 2 * files.length ∧
    ((∃ flds, s.imagesData = JValue.obj flds ∧ hasKey flds "images" = true) →
      ∃ flds, (processFiles uuids nowMs isoUtc apPos files s).imagesData
        = JValue.obj flds ∧ hasKey flds "images" = true) := by
  intro files
  induction files with
  | nil =>
    intro s _
    refine ⟨⟨[], by simp [processFiles], rfl, fun k hk => absurd hk (by simp)⟩,
      rfl, rfl, fun j _ => rfl, by simp [processFiles, newIdsFrom],
      by simp [processFiles, newIdsFrom], rfl, by simp [processFiles, newIdsFrom],
      rfl, rfl, rfl, fun h => h⟩
  | cons p rest ih =>
    intro s hlen
    obtain ⟨hN, hA, hC, hAs, hI, hSk, hU, hShape⟩ :=
      insertOneImage_spec uuids nowMs isoUtc apPos p s
    have hlen1 : apPos
        < (apsListOf (insertOneImage uuids nowMs isoUtc apPos p s).apsDoc).length := by
      rw [hA, List.length_set]
      exact hlen
    obtain ⟨⟨L', hLeq, hLlen, hLids⟩, hA2, hNids2, hOther2, hAll2, hCat2, hCatLen2,
      hAs2, hI2, hSk2, hU2, hShape2⟩ := ih (insertOneImage uuids nowMs isoUtc apPos p s) hlen1
    have hpf : processFiles uuids nowMs isoUtc apPos (p :: rest) s
        = processFiles uuids nowMs isoUtc apPos rest
            (insertOneImage uuids nowMs isoUtc apPos p s) := rfl
    rw [hpf]
    refine ⟨⟨newNoteRecord uuids nowMs isoUtc (notesListOf s.notesDoc) s.uuidCount :: L',
        ?_, ?_, ?_⟩, ?_, ?_, ?_, ?_, ?_, ?_, ?_, ?_, ?_, ?_, ?_⟩
    · rw [hLeq, hN]
      simp
    · simp [hLlen]
    · intro k hk
      cases k with
      | zero =>
        show imageIdsOf (newNoteRecord uuids nowMs isoUtc (notesListOf s.notesDoc)
          s.uuidCount) = _
        rw [imageIdsOf_newNoteRecord]
      | succ k' =>
        show imageIdsOf (L'.getD k' JValue.null) = _
        rw [hLids k' (by simpa using hk), hU]
        have : s.uuidCount + 2 + 2 * k' + 1 = s.uuidCount + 2 * (k' + 1) + 1 := by omega
        rw [this]
    · rw [hA2, hA, List.length_set]
    · rw [hNids2, hA]
      have hset : ((apsListOf s.apsDoc).set apPos (JValue.obj (apAfterInsert uuids
          (asObj ((apsListOf s.apsDoc).getD apPos JValue.null)) s.uuidCount))).getD
          apPos JValue.null
          = JValue.obj (apAfterInsert uuids
            (asObj ((apsListOf s.apsDoc).getD apPos JValue.null)) s.uuidCount) := by
        unfold List.getD
        rw [List.get?_eq_getElem?, List.getElem?_set_self hlen]
        rfl
      rw [hset]
      show (pyNoteIds (apAfterInsert uuids
        (asObj ((apsListOf s.apsDoc).getD apPos JValue.null)) s.uuidCount)).length
        + rest.length = _
      rw [pyNoteIds_apAfterInsert]
      simp
      omega
    · intro j hj
      rw [hOther2 j hj, hA]
      unfold List.getD
      rw [List.get?_eq_getElem?, List.getElem?_set_ne (fun hc => hj hc.symm),
        List.get?_eq_getElem?]
    · rw [hAll2, hU, allNoteImageIds_of_append _ _ hN]
      unfold allNoteImageIds
      rw [List.map_append, List.flatten_append]
      simp only [List.length_cons]
      rw [newIdsFrom_succ]
      simp [imageIdsOf_newNoteRecord]
    · rw [hCat2, hU]
      unfold catalogIds
      rw [hC, List.map_append]
      simp only [List.length_cons]
      rw [newIdsFrom_succ]
      have hid : getKeyD (asObj (JValue.obj (newCatalogEntry (catalogList s.imagesData)
          (uuids (s.uuidCount + 1)) (imageFormatOf p)))) "id" JValue.null
          = JValue.str (uuids (s.uuidCount + 1)) := by
        unfold getKeyD asObj
        rw [newCatalogEntry_id]
        rfl
      simp [hid]
    · rw [hCatLen2, hC]
      simp
      omega
    · rw [hAs2, hAs, hU]
      simp only [List.length_cons]
      rw [newIdsFrom_succ]
      simp
    · rw [hI2, hI]
      simp only [List.length_cons]
      omega
    · rw [hSk2, hSk]
    · rw [hU2, hU]
      simp only [List.length_cons]
      omega
    · intro _
      exact hShape2 hShape

-- ---------------------------------------------------------------------------
-- C1: the PerImageNote (Rule A) contract
-- ---------------------------------------------------------------------------

/-- C1: for an access point that resolves in the AP index (index entry at a
truthy record) and carries `N` accepted images, the engine's unit of work
for that AP creates exactly `N` new note records (appended after the
pre-existing notes), each new note's `imageIds` list is exactly the one
freshly minted image id of its image, and the AP's `noteIds` list grows by
exactly `N` — regardless of how many notes the AP or the project had before. -/
theorem claim_C1_per_image_note (uuids : Nat → String) (nowMs : Int) (isoUtc : String)
    (apIdx : APIndex) (s : RunState) (key : GroupKey) (files : List String) (i : Nat)
    (hres : apIndexGet apIdx (key.1, JValue.str key.2) = some i)
    (htr : pyTruthy ((apsListOf s.apsDoc).getD i JValue.null) = true)
    (hlen : i < (apsListOf s.apsDoc).length) :
    (notesListOf (processGroup uuids nowMs isoUtc apIdx s (key, files)).notesDoc).length
      = (notesListOf s.notesDoc).length + files.length ∧
    (∀ k, k < files.length →
      imageIdsOf ((notesListOf (processGroup uuids nowMs isoUtc apIdx s
          (key, files)).notesDoc).getD ((notesListOf s.notesDoc).length + k) JValue.null)
        = [JValue.str (uuids (s.uuidCount + 2 * k + 1))]) ∧
    (pyNoteIds (asObj ((apsListOf (processGroup uuids nowMs isoUtc apIdx s
        (key, files)).apsDoc).getD i JValue.null))).length
      = (pyNoteIds (asObj ((apsListOf s.apsDoc).getD i JValue.null))).length
        + files.length := by
  have hpg : processGroup uuids nowMs isoUtc apIdx s (key, files)
      = processFiles uuids nowMs isoUtc i files s := by
    unfold processGroup
    rw [hres]
    show (if (!pyTruthy ((apsListOf s.apsDoc).getD i JValue.null)) = true then
        { s with skipped := s.skipped + files.length }
      else processFiles uuids nowMs isoUtc i files s)
      = processFiles uuids nowMs isoUtc i files s
    rw [if_neg (by rw [htr]; simp)]
  rw [hpg]
  obtain ⟨⟨L, hLeq, hLlen, hLids⟩, _, hNids, _, _, _, _, _, _, _, _, _⟩ :=
    processFiles_spec uuids nowMs isoUtc i files s hlen
  refine ⟨?_, ?_, hNids⟩
  · rw [hLeq, List.length_append, hLlen]
  · intro k hk
    rw [hLeq]
    have hidx : (notesListOf s.notesDoc ++ L).getD
        ((notesListOf s.notesDoc).length + k) JValue.null = L.getD k JValue.null := by
      unfold List.getD
      rw [List.get?_eq_getElem?, List.getElem?_append_right (by omega)]
      have harith : (notesListOf s.notesDoc).length + k
          - (notesListOf s.notesDoc).length = k := by omega
      rw [harith, List.get?_eq_getElem?]
    rw [hidx]
    exact hLids k hk

/-- C1, witness: two images of the fixture AP create two notes and grow its
`noteIds` by two. -/
theorem claim_C1_witness :
    (notesListOf (processGroup exUuids 5 "t" exApIdx exRunState
        ((JValue.str "f1", "AP1"), ["F1/AP1.png", "F1/AP1-1.png"])).notesDoc).length
      = (notesListOf exRunState.notesDoc).length + 2 ∧
    (pyNoteIds (asObj ((apsListOf (processGroup exUuids 5 "t" exApIdx exRunState
        ((JValue.str "f1", "AP1"), ["F1/AP1.png", "F1/AP1-1.png"])).apsDoc).getD 0
        JValue.null))).length
      = (pyNoteIds (asObj ((apsListOf exRunState.apsDoc).getD 0 JValue.null))).length
        + 2 := by
  have h := claim_C1_per_image_note exUuids 5 "t" exApIdx exRunState
    ((JValue.str "f1", "AP1")) ["F1/AP1.png", "F1/AP1-1.png"] 0 rfl rfl (by decide)
  exact ⟨h.1, h.2.2⟩

-- ---------------------------------------------------------------------------
-- The group loop, characterized
-- ---------------------------------------------------------------------------

theorem truthy_getD_lt {l : List JValue} {i : Nat}
    (h : pyTruthy (l.getD i JValue.null) = true) : i < l.length := by
  by_contra hc
  push_neg at hc
  have hnull : l.getD i JValue.null = JValue.null := by
    unfold List.getD
    rw [List.get?_eq_getElem?, List.getElem?_eq_none (by omega)]
    rfl
  rw [hnull] at h
  exact absurd h (by decide)

theorem pyNoteIds_ne_nil_truthy {v : JValue} (h : pyNoteIds (asObj v) ≠ []) :
    pyTruthy v = true := by
  cases v with
  | obj fields =>
    cases fields with
    | nil => exact absurd rfl h
    | cons p rest => rfl
  | null => exact absurd rfl h
  | str s => exact absurd rfl h
  | num n => exact absurd rfl h
  | bool b => exact absurd rfl h
  | arr elems => exact absurd rfl h

theorem processGroup_spec (uuids : Nat → String) (nowMs : Int) (isoUtc : String)
    (apIdx : APIndex) (s : RunState) (g : GroupKey × List String) :
    (apsListOf (processGroup uuids nowMs isoUtc apIdx s g).apsDoc).length
      = (apsListOf s.apsDoc).length ∧
    (∀ j, pyTruthy ((apsListOf (processGroup uuids nowMs isoUtc apIdx s g).apsDoc).getD
        j JValue.null) = pyTruthy ((apsListOf s.apsDoc).getD j JValue.null)) ∧
    (processGroup uuids nowMs isoUtc apIdx s g).skipped
      = s.skipped + (if groupResolves apIdx (apsListOf s.apsDoc) g then 0
          else g.2.length) ∧
    (∃ n, (processGroup uuids nowMs isoUtc apIdx s g).inserted = s.inserted + n ∧
      (catalogList (processGroup uuids nowMs isoUtc apIdx s g).imagesData).length
        = (catalogList s.imagesData).length + n) ∧
    (runIntegrity s.notesDoc s.imagesData s.assets →
      runIntegrity (processGroup uuids nowMs isoUtc apIdx s g).notesDoc
        (processGroup uuids nowMs isoUtc apIdx s g).imagesData
        (processGroup uuids nowMs isoUtc apIdx s g).assets) ∧
    ((∃ flds, s.imagesData = JValue.obj flds ∧ hasKey flds "images" = true) →
      ∃ flds, (processGroup uuids nowMs isoUtc apIdx s g).imagesData = JValue.obj flds
        ∧ hasKey flds "images" = true) := by
  cases hres : apIndexGet apIdx (g.1.1, JValue.str g.1.2) with
  | none =>
    have hpg : processGroup uuids nowMs isoUtc apIdx s g
        = { s with skipped := s.skipped + g.2.length } := by
      unfold processGroup
      rw [hres]
    have hgr : groupResolves apIdx (apsListOf s.apsDoc) g = false := by
      unfold groupResolves
      rw [hres]
    rw [hpg, hgr]
    exact ⟨rfl, fun j => rfl, by simp, ⟨0, rfl, by simp⟩, fun h => h, fun h => h⟩
  | some i =>
    cases htr : pyTruthy ((apsListOf s.apsDoc).getD i JValue.null) with
    | false =>
      have hpg : processGroup uuids nowMs isoUtc apIdx s g
          = { s with skipped := s.skipped + g.2.length } := by
        unfold processGroup
        rw [hres]
        show (if (!pyTruthy ((apsListOf s.apsDoc).getD i JValue.null)) = true then
            { s with skipped := s.skipped + g.2.length }
          else processFiles uuids nowMs isoUtc i g.2 s) = _
        rw [if_pos (by rw [htr]; rfl)]
      have hgr : groupResolves apIdx (apsListOf s.apsDoc) g = false := by
        unfold groupResolves
        rw [hres]
        exact htr
      rw [hpg, hgr]
      exact ⟨rfl, fun j => rfl, by simp, ⟨0, rfl, by simp⟩, fun h => h, fun h => h⟩
    | true =>
      have hlen := truthy_getD_lt htr
      have hpg : processGroup uuids nowMs isoUtc apIdx s g
          = processFiles uuids nowMs isoUtc i g.2 s := by
        unfold processGroup
        rw [hres]
        show (if (!pyTruthy ((apsListOf s.apsDoc).getD i JValue.null)) = true then
            { s with skipped := s.skipped + g.2.length }
          else processFiles uuids nowMs isoUtc i g.2 s) = _
        rw [if_neg (by rw [htr]; simp)]
      have hgr : groupResolves apIdx (apsListOf s.apsDoc) g = true := by
        unfold groupResolves
        rw [hres]
        exact htr
      rw [hpg, hgr]
      obtain ⟨⟨L, hLeq, hLlen, hLids⟩, hA2, hNids, hOther, hAll, hCatIds, hCatLen,
        hAssets, hIns, hSk, hU, hShape⟩ :=
        processFiles_spec uuids nowMs isoUtc i g.2 s hlen
      refine ⟨hA2, ?_, by rw [hSk]; simp, ⟨g.2.length, hIns, hCatLen⟩, ?_, hShape⟩
      · intro j
        by_cases hj : j = i
        · subst hj
          cases hfg : g.2 with
          | nil =>
            show pyTruthy ((apsListOf (processFiles uuids nowMs isoUtc j [] s).apsDoc).getD
              j JValue.null) = _
            rfl
          | cons p rest =>
            rw [htr]
            apply pyNoteIds_ne_nil_truthy
            apply List.ne_nil_of_length_pos
            rw [hfg] at hNids
            rw [hNids]
            simp
        · rw [hOther j hj]
      · intro hInt v hv
        rw [hAll] at hv
        rcases List.mem_append.mp hv with hv | hv
        · obtain ⟨sid, rfl, hcat, hass⟩ := hInt v hv
          refine ⟨sid, rfl, ?_, ?_⟩
          · rw [hCatIds]
            exact List.mem_append.mpr (Or.inl hcat)
          · rw [hAssets]
            exact List.mem_append.mpr (Or.inl hass)
        · obtain ⟨id, hid, rfl⟩ := List.mem_map.mp hv
          refine ⟨id, rfl, ?_, ?_⟩
          · rw [hCatIds]
            exact List.mem_append.mpr (Or.inr (List.mem_map.mpr ⟨id, hid, rfl⟩))
          · rw [hAssets]
            exact List.mem_append.mpr (Or.inr (List.mem_map.mpr ⟨id, hid, rfl⟩))

theorem skippedSum_congr (apIdx : APIndex) (a b : List JValue) (gs : Groups)
    (h : ∀ j, pyTruthy (a.getD j JValue.null) = pyTruthy (b.getD j JValue.null)) :
    skippedSum apIdx a gs = skippedSum apIdx b gs := by
  induction gs with
  | nil => rfl
  | cons g gs ih =>
    unfold skippedSum at ih ⊢
    simp only [List.map_cons, List.sum_cons]
    have hg : groupResolves apIdx a g = groupResolves apIdx b g := by
      unfold groupResolves
      cases apIndexGet apIdx (g.1.1, JValue.str g.1.2) with
      | none => rfl
      | some i => exact h i
    rw [hg, ih]

theorem processGroups_spec (uuids : Nat → String) (nowMs : Int) (isoUtc : String)
    (apIdx : APIndex) :
    ∀ (groups : Groups) (s : RunState),
    (apsListOf (processGroups uuids nowMs isoUtc apIdx groups s).apsDoc).length
      = (apsListOf s.apsDoc).length ∧
    (∀ j, pyTruthy ((apsListOf (processGroups uuids nowMs isoUtc apIdx groups s).apsDoc).getD
        j JValue.null) = pyTruthy ((apsListOf s.apsDoc).getD j JValue.null)) ∧
    (processGroups uuids nowMs isoUtc apIdx groups s).skipped
      = s.skipped + skippedSum apIdx (apsListOf s.apsDoc) groups ∧
    (∃ n, (processGroups uuids nowMs isoUtc apIdx groups s).inserted = s.inserted + n ∧
      (catalogList (processGroups uuids nowMs isoUtc apIdx groups s).imagesData).length
        = (catalogList s.imagesData).length + n) ∧
    (runIntegrity s.notesDoc s.imagesData s.assets →
      runIntegrity (processGroups uuids nowMs isoUtc apIdx groups s).notesDoc
        (processGroups uuids nowMs isoUtc apIdx groups s).imagesData
        (processGroups uuids nowMs isoUtc apIdx groups s).assets) ∧
    ((∃ flds, s.imagesData = JValue.obj flds ∧ hasKey flds "images" = true) →
      ∃ flds, (processGroups uuids nowMs isoUtc apIdx groups s).imagesData
        = JValue.obj flds ∧ hasKey flds "images" = true) := by
  intro groups
  induction groups with
  | nil =>
    intro s
    exact ⟨rfl, fun j => rfl, by simp [skippedSum, processGroups], ⟨0, rfl, rfl⟩,
      fun h => h, fun h => h⟩
  | cons g gs ih =>
    intro s
    obtain ⟨hL1, hT1, hS1, ⟨n1, hI1, hC1⟩, hInt1, hSh1⟩ :=
      processGroup_spec uuids nowMs isoUtc apIdx s g
    obtain ⟨hL2, hT2, hS2, ⟨n2, hI2, hC2⟩, hInt2, hSh2⟩ :=
      ih (processGroup uuids nowMs isoUtc apIdx s g)
    have hpg : processGroups uuids nowMs isoUtc apIdx (g :: gs) s
        = processGroups uuids nowMs isoUtc apIdx gs
            (processGroup uuids nowMs isoUtc apIdx s g) := rfl
    rw [hpg]
    refine ⟨by rw [hL2, hL1], ?_, ?_, ⟨n1 + n2, by rw [hI2, hI1]; omega,
      by rw [hC2, hC1]; omega⟩, fun h => hInt2 (hInt1 h), fun h => hSh2 (hSh1 h)⟩
    · intro j
      rw [hT2 j, hT1 j]
    · rw [hS2, hS1]
      rw [skippedSum_congr apIdx _ _ gs hT1]
      unfold skippedSum
      simp only [List.map_cons, List.sum_cons]
      omega

-- ---------------------------------------------------------------------------
-- Inverting a completed run
-- ---------------------------------------------------------------------------

theorem mainRun_completed_inv (uuids : Nat → String) (nowMs : Int) (isoUtc : String)
    (fs : ProjectFS) (docs : SavedDocs) (ins skip : Nat)
    (h : mainRun uuids nowMs isoUtc fs = Except.ok (RunOutcome.completed docs ins skip)) :
    ∃ apsDoc floorsDoc notesDoc,
      fs.accessPointsDoc = some apsDoc ∧ fs.floorPlansDoc = some floorsDoc ∧
      fs.notesDoc = some notesDoc ∧
      (let s1 := processGroups uuids nowMs isoUtc (build_ap_index apsDoc)
          (collect_images fs.imagesRoot (build_floor_name_to_id floorsDoc))
          (initialState fs apsDoc notesDoc)
       docs = ⟨s1.apsDoc, s1.notesDoc, s1.imagesData, s1.assets⟩
         ∧ ins = s1.inserted ∧ skip = s1.skipped) := by
  unfold mainRun at h
  split at h
  · exact absurd h (by simp)
  rename_i hesx
  split at h
  · exact absurd h (by simp)
  · exact absurd h (by simp)
  · exact absurd h (by simp)
  rename_i apsDoc floorsDoc notesDoc happ hfl hnt
  refine ⟨apsDoc, floorsDoc, notesDoc, happ, hfl, hnt, ?_⟩
  dsimp only [] at h
  split at h
  · exact absurd h (by simp)
  split at h
  · exact absurd h (by simp)
  simp only [Except.ok.injEq, RunOutcome.completed.injEq] at h
  exact ⟨h.1.symm, h.2.1.symm, h.2.2.symm⟩

-- ---------------------------------------------------------------------------
-- C4: catalog integrity
-- ---------------------------------------------------------------------------

/-- C4: after a completed run, the image catalog holds exactly its previous
entries plus the reported inserted count, and — provided the input archive
already satisfied it — every image id referenced from any note's `imageIds`
has a catalog entry with the same id and an asset file named `image-<id>`. -/
theorem claim_C4_catalog_integrity (uuids : Nat → String) (nowMs : Int)
    (isoUtc : String) (fs : ProjectFS) (docs : SavedDocs) (ins skip : Nat)
    (hrun : mainRun uuids nowMs isoUtc fs
      = Except.ok (RunOutcome.completed docs ins skip))
    (hint : ∀ nd, fs.notesDoc = some nd →
      runIntegrity nd (init_images_data fs.imagesDoc) fs.existingAssets) :
    (catalogList docs.images).length
      = (catalogList (init_images_data fs.imagesDoc)).length + ins ∧
    runIntegrity docs.notes docs.images docs.assets := by
  obtain ⟨apsDoc, floorsDoc, notesDoc, happ, hfl, hnt, hdocs, hins, hskip⟩ :=
    mainRun_completed_inv uuids nowMs isoUtc fs docs ins skip hrun
  obtain ⟨_, _, _, ⟨n, hIns, hCat⟩, hInt, _⟩ :=
    processGroups_spec uuids nowMs isoUtc (build_ap_index apsDoc)
      (collect_images fs.imagesRoot (build_floor_name_to_id floorsDoc))
      (initialState fs apsDoc notesDoc)
  constructor
  · rw [hdocs, hins]
    show (catalogList (processGroups uuids nowMs isoUtc (build_ap_index apsDoc)
        (collect_images fs.imagesRoot (build_floor_name_to_id floorsDoc))
        (initialState fs apsDoc notesDoc)).imagesData).length = _
    rw [hCat, hIns]
    show (catalogList (initialState fs apsDoc notesDoc).imagesData).length + n
      = _ + ((initialState fs apsDoc notesDoc).inserted + n)
    show (catalogList (init_images_data fs.imagesDoc)).length + n
      = (catalogList (init_images_data fs.imagesDoc)).length + (0 + n)
    omega
  · rw [hdocs]
    exact hInt (hint notesDoc hnt)

/-- C4, witness: a concrete completed run over the fixture project. -/
theorem claim_C4_witness :
    (catalogList ((savedDocsOf (mainRun exUuids 5 "t" exFS)).getD
        ⟨[], [], JValue.null, []⟩).images).length
      = (catalogList (init_images_data exFS.imagesDoc)).length
        + (insertedOf (mainRun exUuids 5 "t" exFS)).getD 0 ∧
    runIntegrity ((savedDocsOf (mainRun exUuids 5 "t" exFS)).getD
        ⟨[], [], JValue.null, []⟩).notes
      ((savedDocsOf (mainRun exUuids 5 "t" exFS)).getD ⟨[], [], JValue.null, []⟩).images
      ((savedDocsOf (mainRun exUuids 5 "t" exFS)).getD ⟨[], [], JValue.null, []⟩).assets := by
  obtain ⟨docs, ins, skip, hrun⟩ : ∃ docs ins skip, mainRun exUuids 5 "t" exFS
      = Except.ok (RunOutcome.completed docs ins skip) := ⟨_, _, _, rfl⟩
  have h := claim_C4_catalog_integrity exUuids 5 "t" exFS docs ins skip hrun (by
    intro nd hnd
    injection hnd with hnd
    subst hnd
    intro v hv
    have hz : allNoteImageIds exNotes = [] := rfl
    rw [hz] at hv
    simp at hv)
  rw [hrun]
  exact h

-- ---------------------------------------------------------------------------
-- C7: image-catalog shape normalization
-- ---------------------------------------------------------------------------

/-- C7: a persisted catalog that is a bare list of entry objects is wrapped
into an object carrying an `images` list; one that is already an object with
an `images` member is used as is; and the catalog document a completed run
writes back is always in the object form (it carries an `images` member). -/
theorem claim_C7_catalog_shape (uuids : Nat → String) (nowMs : Int) (isoUtc : String) :
    (∀ xs : List JValue, (∀ v ∈ xs, ∃ f, v = JValue.obj f) →
      init_images_data (some (JValue.arr xs))
        = JValue.obj [("images", JValue.arr xs)]) ∧
    (∀ flds : Fields, hasKey flds "images" = true →
      init_images_data (some (JValue.obj flds)) = JValue.obj flds) ∧
    (∀ (fs : ProjectFS) (docs : SavedDocs) (ins skip : Nat),
      mainRun uuids nowMs isoUtc fs = Except.ok (RunOutcome.completed docs ins skip) →
      (fs.imagesDoc = none ∨
        (∃ xs, fs.imagesDoc = some (JValue.arr xs) ∧ ∀ v ∈ xs, ∃ f, v = JValue.obj f) ∨
        (∃ flds, fs.imagesDoc = some (JValue.obj flds))) →
      ∃ flds, docs.images = JValue.obj flds ∧ hasKey flds "images" = true) := by
  have ha : ∀ xs : List JValue, (∀ v ∈ xs, ∃ f, v = JValue.obj f) →
      init_images_data (some (JValue.arr xs))
        = JValue.obj [("images", JValue.arr xs)] := by
    intro xs hxs
    have hc : (xs.any (fun v => strEqValue "images" v)) = false := by
      rw [List.any_eq_false]
      intro v hv
      obtain ⟨f, rfl⟩ := hxs v hv
      simp [strEqValue]
    unfold init_images_data
    show (if (xs.any (fun v => strEqValue "images" v)) = true then JValue.arr xs
      else JValue.obj [("images", JValue.arr xs)]) = _
    rw [hc]
    simp
  have hb : ∀ flds : Fields, hasKey flds "images" = true →
      init_images_data (some (JValue.obj flds)) = JValue.obj flds := by
    intro flds hk
    unfold init_images_data
    show (if hasKey flds "images" = true then JValue.obj flds
      else JValue.obj (setKey flds "images" (getKeyD flds "images" (JValue.arr [])))) = _
    rw [if_pos hk]
  refine ⟨ha, hb, ?_⟩
  intro fs docs ins skip hrun hshape
  obtain ⟨apsDoc, floorsDoc, notesDoc, happ, hfl, hnt, hdocs, hins, hskip⟩ :=
    mainRun_completed_inv uuids nowMs isoUtc fs docs ins skip hrun
  obtain ⟨_, _, _, _, _, hSh⟩ :=
    processGroups_spec uuids nowMs isoUtc (build_ap_index apsDoc)
      (collect_images fs.imagesRoot (build_floor_name_to_id floorsDoc))
      (initialState fs apsDoc notesDoc)
  have hinit : ∃ flds, (initialState fs apsDoc notesDoc).imagesData = JValue.obj flds
      ∧ hasKey flds "images" = true := by
    show ∃ flds, init_images_data fs.imagesDoc = JValue.obj flds
      ∧ hasKey flds "images" = true
    rcases hshape with hnone | ⟨xs, hxs, hobjs⟩ | ⟨flds, hflds⟩
    · rw [hnone]
      exact ⟨_, rfl, rfl⟩
    · rw [hxs, ha xs hobjs]
      exact ⟨_, rfl, rfl⟩
    · rw [hflds]
      by_cases hk : hasKey flds "images" = true
      · rw [hb flds hk]
        exact ⟨flds, rfl, hk⟩
      · refine ⟨setKey flds "images" (getKeyD flds "images" (JValue.arr [])), ?_, ?_⟩
        · unfold init_images_data
          show (if hasKey flds "images" = true then JValue.obj flds
            else JValue.obj (setKey flds "images"
              (getKeyD flds "images" (JValue.arr [])))) = _
          rw [if_neg hk]
        · exact hasKey_setKey_self _ _ _
  rw [hdocs]
  exact hSh hinit

/-- C7, witness: a bare-list catalog input on the fixture run ends as an
object carrying an `images` member. -/
theorem claim_C7_witness :
    init_images_data (some (JValue.arr [JValue.obj [("id", JValue.str "e1")]]))
      = JValue.obj [("images", JValue.arr [JValue.obj [("id", JValue.str "e1")]])] ∧
    (∃ flds, ((savedDocsOf (mainRun exUuids 5 "t" exFS)).getD
        ⟨[], [], JValue.null, []⟩).images = JValue.obj flds
      ∧ hasKey flds "images" = true) := by
  constructor
  · exact (claim_C7_catalog_shape exUuids 5 "t").1
      [JValue.obj [("id", JValue.str "e1")]] (by
        intro v hv
        rcases List.mem_singleton.mp hv with rfl
        exact ⟨_, rfl⟩)
  · obtain ⟨docs, ins, skip, hrun⟩ : ∃ docs ins skip, mainRun exUuids 5 "t" exFS
        = Except.ok (RunOutcome.completed docs ins skip) := ⟨_, _, _, rfl⟩
    have h := (claim_C7_catalog_shape exUuids 5 "t").2.2 exFS docs ins skip hrun
      (Or.inl rfl)
    rw [hrun]
    exact h

-- ---------------------------------------------------------------------------
-- C2: skip accounting
-- ---------------------------------------------------------------------------

theorem collect_foldl_filter (floorIdx : List (JValue × JValue)) :
    ∀ (root : List FloorDir) (gs : Groups),
    root.foldl (collectStep floorIdx) gs
      = (root.filter (fun e => e.isDir && (floorGate floorIdx e.name).isSome)).foldl
          (collectStep floorIdx) gs := by
  intro root
  induction root with
  | nil => intro gs; rfl
  | cons e rest ih =>
    intro gs
    by_cases hd : e.isDir = true
    · cases hg : floorGate floorIdx e.name with
      | none =>
        have hstep : collectStep floorIdx gs e = gs := by
          unfold collectStep
          rw [if_neg (by rw [hd]; simp), hg]
        have hfilt : (e :: rest).filter
            (fun e => e.isDir && (floorGate floorIdx e.name).isSome)
            = rest.filter (fun e => e.isDir && (floorGate floorIdx e.name).isSome) := by
          rw [List.filter_cons]
          rw [if_neg (by rw [hd, hg]; simp)]
        rw [List.foldl_cons, hstep, hfilt]
        exact ih gs
      | some fid =>
        have hfilt : (e :: rest).filter
            (fun e => e.isDir && (floorGate floorIdx e.name).isSome)
            = e :: rest.filter (fun e => e.isDir && (floorGate floorIdx e.name).isSome) := by
          rw [List.filter_cons]
          rw [if_pos (by rw [hd, hg]; simp)]
        rw [List.foldl_cons, hfilt, List.foldl_cons]
        exact ih (collectStep floorIdx gs e)
    · have hstep : collectStep floorIdx gs e = gs := by
        unfold collectStep
        rw [if_pos (by simp [hd])]
      have hfilt : (e :: rest).filter
          (fun e => e.isDir && (floorGate floorIdx e.name).isSome)
          = rest.filter (fun e => e.isDir && (floorGate floorIdx e.name).isSome) := by
        rw [List.filter_cons]
        rw [if_neg (by simp [hd])]
      rw [List.foldl_cons, hstep, hfilt]
      exact ih gs

/-- C2 (amended): an image file under a floor subdirectory with no truthy
match in the floor index is never collected — dropping all unmatched
subdirectories leaves the collected groups unchanged, so such files produce
no asset file and no catalog entry, and contribute to no counter (only a
warning) — while an image file whose parsed AP name has no AP match on the
resolved floor produces no asset file, no catalog entry and no document
change, and IS included in the reported skipped count: the final skipped
count is exactly the total size of the unresolved groups. -/
theorem claim_C2_skip_accounting (uuids : Nat → String) (nowMs : Int) (isoUtc : String) :
    (∀ (root : List FloorDir) (floorIdx : List (JValue × JValue)),
      collect_images root floorIdx
        = collect_images (root.filter (fun e => e.isDir
            && (floorGate floorIdx e.name).isSome)) floorIdx) ∧
    (∀ (apIdx : APIndex) (s : RunState) (g : GroupKey × List String),
      groupResolves apIdx (apsListOf s.apsDoc) g = false →
      processGroup uuids nowMs isoUtc apIdx s g
        = { s with skipped := s.skipped + g.2.length }) ∧
    (∀ (apIdx : APIndex) (groups : Groups) (s : RunState),
      (processGroups uuids nowMs isoUtc apIdx groups s).skipped
        = s.skipped + skippedSum apIdx (apsListOf s.apsDoc) groups) := by
  refine ⟨?_, ?_, ?_⟩
  · intro root floorIdx
    unfold collect_images
    exact collect_foldl_filter floorIdx root []
  · intro apIdx s g hres
    unfold groupResolves at hres
    cases hg : apIndexGet apIdx (g.1.1, JValue.str g.1.2) with
    | none =>
      unfold processGroup
      rw [hg]
    | some i =>
      rw [hg] at hres
      have hres' : pyTruthy ((apsListOf s.apsDoc).getD i JValue.null) = false := hres
      unfold processGroup
      rw [hg]
      show (if (!pyTruthy ((apsListOf s.apsDoc).getD i JValue.null)) = true then
          { s with skipped := s.skipped + g.2.length }
        else processFiles uuids nowMs isoUtc i g.2 s) = _
      rw [if_pos (by rw [hres']; rfl)]
  · intro apIdx groups s
    exact (processGroups_spec uuids nowMs isoUtc apIdx groups s).2.2.1

/-- C2, counterexample: the fixture project has one image under the
unmatched floor directory `Nope` and one accepted image of `AP1` under the
matched floor `F1`.  The claim says the unmatched-floor image is included in
the reported skipped count (so skipped would be at least 1), but the run
completes with inserted = 1 and skipped = 0: unmatched-floor images are
dropped silently, not counted. -/
theorem claim_C2_counterexample :
    skippedOf (mainRun exUuids 5 "t" exFS) = some 0 ∧
    insertedOf (mainRun exUuids 5 "t" exFS) = some 1 := ⟨rfl, rfl⟩

/-- C2, witness: a group whose AP key has no index match only bumps the
skipped counter by the group size. -/
theorem claim_C2_witness :
    processGroup exUuids 5 "t" exApIdx exRunState
        ((JValue.str "f2", "APX"), ["F2/APX.png"])
      = { exRunState with skipped := exRunState.skipped + 1 } :=
  (claim_C2_skip_accounting exUuids 5 "t").2.1 exApIdx exRunState
    ((JValue.str "f2", "APX"), ["F2/APX.png"]) rfl

-- ---------------------------------------------------------------------------
-- C3: run with an empty image collection
-- ---------------------------------------------------------------------------

/-- C3, counterexample: with every check passing but an empty image
directory, the run terminates normally (no exception) yet `repack_project`
is never invoked — no output archive is produced, contradicting the claim
that the run still produces the repacked archive. -/
theorem claim_C3_counterexample :
    isError (mainRun exUuids 5 "t" exFSEmptyDir) = false ∧
    outputArchiveWritten (mainRun exUuids 5 "t" exFSEmptyDir) = false := ⟨rfl, rfl⟩

/-- C3 (amended): a run whose image scan collects nothing returns early on
the `No AP images found to insert` path: no document is saved (every
pre-existing document is left untouched on disk, zero catalog entries and
zero asset files are added), and no repacked output archive is produced. -/
theorem claim_C3_empty_run (uuids : Nat → String) (nowMs : Int) (isoUtc : String)
    (fs : ProjectFS) (apsDoc floorsDoc notesDoc : Fields)
    (hesx : fs.esxExists = true)
    (hap : fs.accessPointsDoc = some apsDoc)
    (hfl : fs.floorPlansDoc = some floorsDoc)
    (hnt : fs.notesDoc = some notesDoc)
    (hdir : fs.imagesRootIsDir = true)
    (hempty : collect_images fs.imagesRoot (build_floor_name_to_id floorsDoc) = []) :
    mainRun uuids nowMs isoUtc fs = Except.ok RunOutcome.noImages ∧
    savedDocsOf (mainRun uuids nowMs isoUtc fs) = none ∧
    outputArchiveWritten (mainRun uuids nowMs isoUtc fs) = false := by
  have hrun : mainRun uuids nowMs isoUtc fs = Except.ok RunOutcome.noImages := by
    unfold mainRun
    rw [hesx, hap, hfl, hnt, hdir]
    dsimp only []
    rw [hempty]
    rfl
  rw [hrun]
  exact ⟨rfl, rfl, rfl⟩

/-- C3, witness. -/
theorem claim_C3_witness :
    mainRun exUuids 5 "t" exFSEmptyDir = Except.ok RunOutcome.noImages ∧
    savedDocsOf (mainRun exUuids 5 "t" exFSEmptyDir) = none ∧
    outputArchiveWritten (mainRun exUuids 5 "t" exFSEmptyDir) = false :=
  claim_C3_empty_run exUuids 5 "t" exFSEmptyDir exAccessPoints exFloorPlans exNotes
    rfl rfl rfl rfl rfl rfl

-- ---------------------------------------------------------------------------
-- C6: the fatal-error taxonomy
-- ---------------------------------------------------------------------------

theorem isError_ite_ok {c : Prop} [Decidable c] (a b : RunOutcome) :
    isError (if c then Except.ok a else Except.ok b) = false := by
  split <;> rfl

theorem isError_error (e : RunError) :
    isError (Except.error e : Except RunError RunOutcome) = true := rfl

/-- C6, counterexample: the claim says every non-raising run terminates with
a summary count, but a run whose image scan collects nothing terminates
normally on the early `No AP images found` path, before the counters even
exist — no summary is reported. -/
theorem claim_C6_counterexample :
    isError (mainRun exUuids 5 "t" exFSEmptyDir) = false ∧
    endsWithSummary (mainRun exUuids 5 "t" exFSEmptyDir) = false := ⟨rfl, rfl⟩

/-- C6 (amended): the run raises if and only if the source archive is
missing, the image root directory is missing, or one of the three required
documents (accessPoints.json, floorPlans.json, notes.json) is missing; a
missing images.json is not fatal and is initialized fresh; otherwise the
run terminates normally, reporting the inserted/skipped summary when at
least one image group was collected and exiting early without a summary
when none were. -/
theorem claim_C6_fatal_taxonomy (uuids : Nat → String) (nowMs : Int) (isoUtc : String)
    (fs : ProjectFS) :
    (isError (mainRun uuids nowMs isoUtc fs) = true ↔
      (fs.esxExists = false ∨ fs.accessPointsDoc = none ∨ fs.floorPlansDoc = none ∨
        fs.notesDoc = none ∨ fs.imagesRootIsDir = false)) ∧
    init_images_data none = JValue.obj [("images", JValue.arr [])] ∧
    (∀ apsDoc floorsDoc notesDoc : Fields,
      fs.esxExists = true → fs.accessPointsDoc = some apsDoc →
      fs.floorPlansDoc = some floorsDoc → fs.notesDoc = some notesDoc →
      fs.imagesRootIsDir = true →
      (collect_images fs.imagesRoot (build_floor_name_to_id floorsDoc) = [] →
        mainRun uuids nowMs isoUtc fs = Except.ok RunOutcome.noImages) ∧
      (collect_images fs.imagesRoot (build_floor_name_to_id floorsDoc) ≠ [] →
        endsWithSummary (mainRun uuids nowMs isoUtc fs) = true)) := by
  refine ⟨?_, rfl, ?_⟩
  · obtain ⟨esx, apD, flD, ntD, imD, assets, rootD, root⟩ := fs
    cases esx <;> cases apD <;> cases flD <;> cases ntD <;> cases rootD <;>
      simp [mainRun, isError_ite_ok, isError_error]
  · intro apsDoc floorsDoc notesDoc hesx hap hfl hnt hdir
    constructor
    · intro hempty
      exact (claim_C3_empty_run uuids nowMs isoUtc fs apsDoc floorsDoc notesDoc
        hesx hap hfl hnt hdir hempty).1
    · intro hne
      have hie : (collect_images fs.imagesRoot (build_floor_name_to_id floorsDoc)).isEmpty
          = false := by
        cases hcc : collect_images fs.imagesRoot (build_floor_name_to_id floorsDoc) with
        | nil => exact absurd hcc hne
        | cons a l => rfl
      unfold mainRun
      rw [hesx, hap, hfl, hnt, hdir]
      dsimp only []
      rw [hie]
      rfl

/-- C6, witness: a missing archive raises; an empty scan exits early without
a summary; a non-empty scan ends with the summary. -/
theorem claim_C6_witness :
    isError (mainRun exUuids 5 "t" ⟨false, some exAccessPoints, some exFloorPlans,
      some exNotes, none, [], true, []⟩) = true ∧
    mainRun exUuids 5 "t" exFSEmptyDir = Except.ok RunOutcome.noImages ∧
    endsWithSummary (mainRun exUuids 5 "t" exFS) = true := by
  refine ⟨?_, ?_, ?_⟩
  · exact (claim_C6_fatal_taxonomy exUuids 5 "t" _).1.mpr (Or.inl rfl)
  · exact ((claim_C6_fatal_taxonomy exUuids 5 "t" exFSEmptyDir).2.2 exAccessPoints
      exFloorPlans exNotes rfl rfl rfl rfl rfl).1 rfl
  · have hc : collect_images exFS.imagesRoot (build_floor_name_to_id exFloorPlans)
        = [((JValue.str "f1", "AP1"), ["F1/AP1.png"])] := rfl
    exact ((claim_C6_fatal_taxonomy exUuids 5 "t" exFS).2.2 exAccessPoints exFloorPlans
      exNotes rfl rfl rfl rfl rfl).2 (by rw [hc]; exact fun h => List.noConfusion h)
